import Mathlib

/-!
CPatience: a shallow embedding of `patience_utils.c`

The C functions `add_to_11`, `jqk`, `shuffle_deck`, `print_visible`, `play` and
`many_plays` are translated to Lean functions of the same names.

Modelling conventions.

* A C `int` is a Lean `Int`.  The only arithmetic on card values is the sum
  `visible[i] + visible[j]` of `add_to_11`, which is the 32-bit sum `int_add`:
  the exact sum when it fits an `int` (always so for card values 0..13),
  wrapped modulo `2^32` otherwise.
* A C array is a `List Int`; a read `a[i]` is `a.getD i 0` and a write
  `a[i] = v` is `a.set i v`.  Arrays have a fixed size, stated as a hypothesis
  on the length wherever it matters (`deck` has `DECK_SIZE` entries, `visible`
  has `MAX_PILES`).
* A bounded `for` loop is a function recursing on the number of iterations
  that are left, carrying the loop variable.
* The hidden state of the C library generator is passed explicitly
  (`Rng`): `srand` resets it from a seed, `rand` returns a non-negative value
  and the next state.
* The local array `visible` of `play` is not initialised by the C code; its
  indeterminate initial contents are the parameter `junk`.
* Standard output is a list of lines, one per call of `print_visible`; a line
  is the list of the integers printed.
-/

namespace Patience

/-- Number of cards in a standard deck (`DECK_SIZE` of patience_utils.h). -/
def DECK_SIZE : Nat := 52

/-- Maximum number of piles allowed before the player loses (`MAX_PILES`). -/
def MAX_PILES : Nat := 9

/-! ## add_to_11 -/

/-- Least value of a C `int` (32 bits, two's complement). -/
def INT_MIN : Int := -2147483648

/-- Greatest value of a C `int`. -/
def INT_MAX : Int := 2147483647

/-- The C expression `a + b` on `int`: the sum reduced modulo `2^32` into the
range `INT_MIN .. INT_MAX`.  It is the exact sum whenever that fits an `int`;
an overflowing sum, undefined in C, is given the value that two's complement
hardware produces. -/
def int_add (a b : Int) : Int := (a + b + 2147483648) % 4294967296 - 2147483648

/-- Inner loop of `add_to_11`: `for (j = i + 1; j < num_visible; j++)`.  The
first argument is the number of iterations left, `num_visible - j`. -/
def add_to_11_inner (visible : List Int) (i : Nat) : Nat → Nat → Option (Nat × Nat)
  | 0, _ => none
  | k + 1, j =>
    if int_add (visible.getD i 0) (visible.getD j 0) = 11 then some (i, j)
    else add_to_11_inner visible i k (j + 1)

/-- Outer loop of `add_to_11`: `for (i = 0; i < num_visible; i++)`.  The first
numeric argument is the number of iterations left, `num_visible - i`. -/
def add_to_11_outer (visible : List Int) (num_visible : Nat) : Nat → Nat → Option (Nat × Nat)
  | 0, _ => none
  | k + 1, i =>
    match add_to_11_inner visible i (num_visible - (i + 1)) (i + 1) with
    | some p => some p
    | none => add_to_11_outer visible num_visible k (i + 1)

/-- The function `add_to_11`: `some (pos1, pos2)` when it returns true (with the
two positions it stores), `none` when it returns false. -/
def add_to_11 (visible : List Int) (num_visible : Nat) : Option (Nat × Nat) :=
  add_to_11_outer visible num_visible num_visible 0

/-! ## jqk -/

/-- Local variables of `jqk`.  The three positions are not initialised in C;
they are read only when the matching flag has been set. -/
structure JqkScan where
  jack : Bool
  queen : Bool
  king : Bool
  jack_pos : Nat
  queen_pos : Nat
  king_pos : Nat
  deriving DecidableEq

/-- Scanning loop of `jqk`: `for (i = 0; i < num_visible; i++)`, first argument
the number of iterations left. -/
def jqk_loop (visible : List Int) : Nat → Nat → JqkScan → JqkScan
  | 0, _, s => s
  | k + 1, i, s =>
    jqk_loop visible k (i + 1)
      (if visible.getD i 0 = 11 then { s with jack := true, jack_pos := i }
       else if visible.getD i 0 = 12 then { s with queen := true, queen_pos := i }
       else if visible.getD i 0 = 13 then { s with king := true, king_pos := i }
       else s)

/-- The function `jqk`: `some [positions[0], positions[1], positions[2]]` when it
returns true, `none` when it returns false. -/
def jqk (visible : List Int) (num_visible : Nat) : Option (List Nat) :=
  let s := jqk_loop visible num_visible 0 ⟨false, false, false, 0, 0, 0⟩
  if s.jack && s.queen && s.king then some [s.jack_pos, s.queen_pos, s.king_pos]
  else none

/-! ## shuffle_deck -/

/-- The C library pseudo-random generator over a state type `σ`. -/
structure Rng (σ : Type) where
  /-- Reset the state from a seed: `srand(seed)`. -/
  srand : Int → σ
  /-- Value returned by `rand()`, in `[0, RAND_MAX]`, and the next state. -/
  rand : σ → Nat × σ

/-- First loop of `shuffle_deck`: `deck[i] = (i % 13) + 1` for `i` up to
`DECK_SIZE`; first argument the number of iterations left. -/
def fill_deck : Nat → Nat → List Int → List Int
  | 0, _, deck => deck
  | k + 1, i, deck => fill_deck k (i + 1) (deck.set i (((i % 13 : Nat) : Int) + 1))

/-- Second loop of `shuffle_deck`: `for (i = DECK_SIZE - 1; i > 0; i--)`, the
Fisher-Yates swaps.  The first numeric argument is the loop variable `i`. -/
def fisher_yates {σ : Type} (g : Rng σ) : Nat → List Int → σ → List Int × σ
  | 0, deck, st => (deck, st)
  | i + 1, deck, st =>
    fisher_yates g i
      ((deck.set (i + 1) (deck.getD ((g.rand st).1 % (i + 1 + 1)) 0)).set
        ((g.rand st).1 % (i + 1 + 1)) (deck.getD (i + 1) 0))
      (g.rand st).2

/-- The function `shuffle_deck(deck, seed)`, run on the array contents `deck`
from the generator state `st`: the new contents of `deck` and the new state. -/
def shuffle_deck {σ : Type} (g : Rng σ) (deck : List Int) (seed : Int) (st : σ) :
    List Int × σ :=
  fisher_yates g (DECK_SIZE - 1) (fill_deck DECK_SIZE 0 deck)
    (if seed ≠ 0 then g.srand seed else st)

/-- The deck before shuffling: `(i % 13) + 1` at index `i`, four copies of each
value 1..13. -/
def sorted_deck : List Int :=
  (List.range DECK_SIZE).map (fun i => ((i % 13 : Nat) : Int) + 1)

/-! ## print_visible and play -/

/-- Line printed by `print_visible(visible, num_visible)`. -/
def print_visible (visible : List Int) (num_visible : Nat) : List Int :=
  (List.range num_visible).map (fun i => visible.getD i 0)

/-- Local variables of `play`, with the lines printed so far. -/
structure PlayState where
  visible : List Int
  num_visible : Nat
  num_piles : Nat
  deck_pos : Nat
  out : List (List Int)
  deriving DecidableEq

/-- The statement `if (verbose) print_visible(visible, num_visible);`. -/
def trace_visible (verbose : Int) (s : PlayState) : PlayState :=
  if verbose ≠ 0 then { s with out := s.out ++ [print_visible s.visible s.num_visible] }
  else s

/-- One guarded draw of the sum-to-11 branch:
`if (deck_pos < DECK_SIZE) visible[pos] = deck[deck_pos++];`. -/
def draw_if_left (deck : List Int) (pos : Nat) (s : PlayState) : PlayState :=
  if s.deck_pos < DECK_SIZE then
    { s with visible := s.visible.set pos (deck.getD s.deck_pos 0),
             deck_pos := s.deck_pos + 1 }
  else s

/-- The loop `for (i = 0; i < 3; i++)` of the Jack/Queen/King branch, over the
entries of `positions`: the next card if one is left, else 0. -/
def jqk_replace (deck : List Int) : List Nat → PlayState → PlayState
  | [], s => s
  | p :: ps, s =>
    jqk_replace deck ps
      (if s.deck_pos < DECK_SIZE then
        { s with visible := s.visible.set p (deck.getD s.deck_pos 0),
                 deck_pos := s.deck_pos + 1 }
       else { s with visible := s.visible.set p 0 })

/-- Outcome of one execution of the body of the `while` loop of `play`. -/
inductive TurnResult where
  /-- The body ran to its end; the loop condition is tested again. -/
  | next (s : PlayState)
  /-- The body executed `return r`, in state `s`. -/
  | ret (r : Int) (s : PlayState)
  deriving DecidableEq

/-- Body of the `while (deck_pos < DECK_SIZE)` loop of `play`. -/
def turn (deck : List Int) (verbose : Int) (s : PlayState) : TurnResult :=
  match add_to_11 s.visible s.num_visible with
  | some (pos1, pos2) =>
    .next (trace_visible verbose (draw_if_left deck pos2 (draw_if_left deck pos1 s)))
  | none =>
    match jqk s.visible s.num_visible with
    | some positions => .next (trace_visible verbose (jqk_replace deck positions s))
    | none =>
      if s.num_piles + 1 > MAX_PILES - 1 then
        .ret ((DECK_SIZE : Int) - (s.deck_pos : Int)) { s with num_piles := s.num_piles + 1 }
      else
        .next (trace_visible verbose
          { s with visible := s.visible.set s.num_visible (deck.getD s.deck_pos 0),
                   num_visible := s.num_visible + 1,
                   num_piles := s.num_piles + 1,
                   deck_pos := s.deck_pos + 1 })

/-- What a finished call of `play` leaves: the value returned, the local
variables at the `return`, and the number of executions of the loop body. -/
structure PlayResult where
  ret : Int
  final : PlayState
  turns : Nat
  deriving DecidableEq

/-- The `while (deck_pos < DECK_SIZE)` loop of `play`, allowed at most `fuel`
executions of its body; `turns` counts the executions so far.  The result is
`none` when the loop needs more than `fuel` executions. -/
def play_loop (deck : List Int) (verbose : Int) : Nat → PlayState → Nat → Option PlayResult
  | 0, s, turns => if s.deck_pos < DECK_SIZE then none else some ⟨0, s, turns⟩
  | fuel + 1, s, turns =>
    if s.deck_pos < DECK_SIZE then
      match turn deck verbose s with
      | .next s' => play_loop deck verbose fuel s' (turns + 1)
      | .ret r s' => some ⟨r, s', turns + 1⟩
    else some ⟨0, s, turns⟩

/-- State of `play` after the first two cards are placed and printed. -/
def play_init (junk deck : List Int) (verbose : Int) : PlayState :=
  trace_visible verbose
    { visible := (junk.set 0 (deck.getD 0 0)).set 1 (deck.getD 1 0),
      num_visible := 2, num_piles := 1, deck_pos := 2, out := [] }

/-- The function `play(deck, verbose)` with the loop allowed `fuel` turns. -/
def play_fuel (fuel : Nat) (junk deck : List Int) (verbose : Int) : Option PlayResult :=
  play_loop deck verbose fuel (play_init junk deck verbose) 0

/-- The function `play(deck, verbose)`; `junk` is the indeterminate initial
content of the local array `visible`.  The loop is allowed `DECK_SIZE` turns,
which is always enough. -/
def play (junk deck : List Int) (verbose : Int) : Option PlayResult :=
  play_fuel DECK_SIZE junk deck verbose

/-! ## many_plays -/

/-- Variables of `many_plays` that live across its loop, with the generator
state. -/
structure BatchState (σ : Type) where
  remaining : List Int
  deck : List Int
  rng : σ

/-- The loop `for (i = 0; i < N; i++)` of `many_plays`; first argument the
number of iterations left, second the loop variable.  `junk i` is the
indeterminate initial content of the array `visible` of game `i`. -/
def many_plays_loop {σ : Type} (g : Rng σ) (junk : Nat → List Int) :
    Nat → Nat → BatchState σ → Option (BatchState σ)
  | 0, _, b => some b
  | k + 1, i, b =>
    match play (junk i) (shuffle_deck g b.deck 0 b.rng).1 0 with
    | none => none
    | some r =>
      many_plays_loop g junk k (i + 1)
        { remaining := b.remaining.set r.ret.toNat (b.remaining.getD r.ret.toNat 0 + 1),
          deck := (shuffle_deck g b.deck 0 b.rng).1,
          rng := (shuffle_deck g b.deck 0 b.rng).2 }

/-- The function `many_plays(N)`, run from the generator state `st`; `deck0` is
the indeterminate initial content of its local array `deck`.  The result is
the array returned (`calloc(DECK_SIZE, sizeof(int))` entries) and the
generator state left. -/
def many_plays {σ : Type} (g : Rng σ) (junk : Nat → List Int) (deck0 : List Int)
    (N : Int) (st : σ) : Option (List Int × σ) :=
  (many_plays_loop g junk N.toNat 0
      { remaining := List.replicate DECK_SIZE 0, deck := deck0, rng := st }).map
    (fun b => (b.remaining, b.rng))

/-! ## Predicates used to state the properties -/

/-- Invariant of the loop of `play`, at the test of the loop condition. -/
def Inv (s : PlayState) : Prop :=
  2 ≤ s.num_visible ∧ s.num_visible ≤ MAX_PILES ∧ s.num_visible = s.num_piles + 1 ∧
    s.num_visible ≤ s.deck_pos ∧ s.deck_pos ≤ DECK_SIZE

/-- What holds of the result of a finished `play`: either the loop ended with
the deck used up and 0 was returned, or the body returned in the new-pile
branch with nine cards visible and no match among them. -/
def Finished (r : PlayResult) : Prop :=
  (r.ret = 0 ∧ r.final.deck_pos = DECK_SIZE ∧ Inv r.final) ∨
  (r.ret = (DECK_SIZE : Int) - (r.final.deck_pos : Int) ∧ r.final.deck_pos < DECK_SIZE ∧
    r.final.num_visible = MAX_PILES ∧ r.final.num_piles = MAX_PILES ∧
    MAX_PILES ≤ r.final.deck_pos ∧
    add_to_11 r.final.visible r.final.num_visible = none ∧
    jqk r.final.visible r.final.num_visible = none)

/-- Two states of `play` that differ at most in the unused slots of `visible`
(and in what was printed). -/
def Agree (s s' : PlayState) : Prop :=
  s.num_visible = s'.num_visible ∧ s.num_piles = s'.num_piles ∧ s.deck_pos = s'.deck_pos ∧
    s.visible.length = s'.visible.length ∧
    ∀ k, k < s.num_visible → s.visible.getD k 0 = s'.visible.getD k 0

/-! ## Sample inputs for concrete evaluation -/

/-- A sample generator, a linear congruential one. -/
def sample_rng : Rng Nat where
  srand := fun seed => seed.toNat
  rand := fun st =>
    ((st * 1103515245 + 12345) % 2147483648 / 65536,
      (st * 1103515245 + 12345) % 2147483648)

/-- A sample initial content of the array `visible`. -/
def sample_junk : List Int := [-7, 99, 0, 5, 5, 6, 12, -1, 3]

/-- Another sample initial content of the array `visible`. -/
def sample_junk2 : List Int := [11, 12, 13, 10, 1, 0, 0, 4, 7]

/-- A sample deck: every value 1..13 four times. -/
def sample_deck : List Int :=
  [5, 4, 12, 3, 8, 6, 4, 13, 1, 6, 1, 5, 4, 5, 2, 9, 4, 3, 6, 11, 7, 9, 12, 8, 8, 3,
   9, 11, 1, 1, 10, 13, 10, 13, 6, 10, 7, 12, 11, 2, 10, 9, 8, 2, 2, 3, 13, 7, 5, 7, 12, 11]

/-! ## Predicates and functions used to state the batch and no-match properties -/

/-- State of `play` after `m` piles were opened with no replacement: the
first `m + 2` cards of the deck are visible. -/
def PilesOpened (deck : List Int) (verbose : Int) (m : Nat) (s : PlayState) : Prop :=
  s.num_visible = m + 2 ∧ s.num_piles = m + 1 ∧ s.deck_pos = m + 2 ∧
    s.visible.length = MAX_PILES ∧
    (∀ k, k < m + 2 → s.visible.getD k 0 = deck.getD k 0) ∧
    s.out = if verbose ≠ 0 then (List.range (m + 1)).map (fun k => deck.take (k + 2)) else []

/-- Deck and generator state that game `k` of a batch plays with: game 0
shuffles with seed 0 from the state at the start, game `k + 1` from the state
(and array) left by game `k`; there is no reseeding. -/
def game_input {σ : Type} (g : Rng σ) (deck0 : List Int) (st : σ) : Nat → List Int × σ
  | 0 => shuffle_deck g deck0 0 st
  | k + 1 => shuffle_deck g (game_input g deck0 st k).1 0 (game_input g deck0 st k).2

/-- Value returned by `play`, not tracing, for game `k` of a batch. -/
def game_result {σ : Type} (g : Rng σ) (junk : Nat → List Int) (deck0 : List Int) (st : σ)
    (k : Nat) : Option Int :=
  (play (junk k) (game_input g deck0 st k).1 0).map (fun r => r.ret)

/-- A sample deck whose first nine cards hold no match: the values in
increasing order, four of each. -/
def sample_losing_deck : List Int :=
  [1, 1, 1, 1, 2, 2, 2, 2, 3, 3, 3, 3, 4, 4, 4, 4, 5, 5, 5, 5, 6, 6, 6, 6, 7, 7,
   7, 7, 8, 8, 8, 8, 9, 9, 9, 9, 10, 10, 10, 10, 11, 11, 11, 11, 12, 12, 12, 12, 13, 13, 13, 13]

/-! ## Definitions for the turn-level, trace and driver properties -/

/-- A sample deck that starts King, Queen, Jack, then 1, 2, 3. -/
def sample_kqj_deck : List Int :=
  [13, 12, 11, 1, 2, 3, 1, 1, 1, 2, 2, 2, 3, 3, 3, 4, 4, 4, 4, 5, 5, 5, 5, 6, 6, 6,
   6, 7, 7, 7, 7, 8, 8, 8, 8, 9, 9, 9, 9, 10, 10, 10, 10, 11, 11, 11, 12, 12, 12, 13, 13, 13]

/-- A sample state of `play` at the loop test with one card left in the deck
and a pair summing to 11 (6 in slot 4, 5 in slot 8). -/
def sample_last_card_state : PlayState :=
  { visible := [12, 13, 11, 11, 6, 7, 12, 4, 5], num_visible := 9, num_piles := 8,
    deck_pos := 51, out := [] }

/-- A sample state of `play` at the loop test with two cards left in the deck,
no pair summing to 11, and Queen, King, Jack in slots 0, 1, 2. -/
def sample_jqk_state : PlayState :=
  { visible := [12, 13, 11, 0, 0, 0, 0, 0, 0], num_visible := 3, num_piles := 2,
    deck_pos := 50, out := [] }

/-- Card that iteration `i` of the Jack/Queen/King loop stores, started with the
deck cursor at `deck_pos`: the next card of the deck, or 0 when none is left. -/
def jqk_card (deck : List Int) (deck_pos i : Nat) : Int :=
  if deck_pos + i < DECK_SIZE then deck.getD (deck_pos + i) 0 else 0

/-- States of `play` at the test of the loop condition: the state after the
initial deal, and the state after every turn that ran to its end. -/
inductive LoopHead (junk deck : List Int) (verbose : Int) : PlayState → Prop where
  | init : LoopHead junk deck verbose (play_init junk deck verbose)
  | step (s s' : PlayState) : LoopHead junk deck verbose s → s.deck_pos < DECK_SIZE →
      turn deck verbose s = .next s' → LoopHead junk deck verbose s'

/-- States that `play` goes through from the end of the initial deal on: the
states at the loop test, the states between the statements of a turn (after
the first and after the second guarded draw of the sum-to-11 branch, after
each iteration of the Jack/Queen/King loop), and the state at a `return`
inside the loop. -/
inductive Point (junk deck : List Int) (verbose : Int) : PlayState → Prop where
  | head (s : PlayState) : LoopHead junk deck verbose s → Point junk deck verbose s
  | pair_first (s : PlayState) (pos1 pos2 : Nat) : LoopHead junk deck verbose s →
      s.deck_pos < DECK_SIZE → add_to_11 s.visible s.num_visible = some (pos1, pos2) →
      Point junk deck verbose (draw_if_left deck pos1 s)
  | pair_second (s : PlayState) (pos1 pos2 : Nat) : LoopHead junk deck verbose s →
      s.deck_pos < DECK_SIZE → add_to_11 s.visible s.num_visible = some (pos1, pos2) →
      Point junk deck verbose (draw_if_left deck pos2 (draw_if_left deck pos1 s))
  | jqk_iter (s : PlayState) (positions : List Nat) (i : Nat) :
      LoopHead junk deck verbose s → s.deck_pos < DECK_SIZE →
      add_to_11 s.visible s.num_visible = none →
      jqk s.visible s.num_visible = some positions →
      Point junk deck verbose (jqk_replace deck (positions.take i) s)
  | returned (s s' : PlayState) (r : Int) : LoopHead junk deck verbose s →
      s.deck_pos < DECK_SIZE → turn deck verbose s = .ret r s' →
      Point junk deck verbose s'

/-- Shape of the lines printed so far, at the loop test of a tracing `play`:
the first line is the initial deal, the last line is the current visible row,
each line is as long as the one before or one longer, and every line has
between 2 and `MAX_PILES` entries. -/
def TraceShape (deck : List Int) (s : PlayState) : Prop :=
  s.out.head? = some [deck.getD 0 0, deck.getD 1 0] ∧
    s.out.getLast? = some (s.visible.take s.num_visible) ∧
    List.Chain' (fun a b : List Int => b.length = a.length ∨ b.length = a.length + 1) s.out ∧
    ∀ l ∈ s.out, 2 ≤ l.length ∧ l.length ≤ MAX_PILES

/-- Number of histogram rows of pstatistics.c:
`max_cards_left = (DECK_SIZE - MAX_PILES) + 1`; it reports the counts 0 to 43. -/
def max_cards_left : Nat := (DECK_SIZE - MAX_PILES) + 1

/-- What a run of `main` of patience.c computes (the run in which the output
file opens). -/
structure MainRun where
  /-- Deck after the first `shuffle_deck(deck, seed)`. -/
  first_deck : List Int
  /-- Value of `cards_left = play(deck, 1)`, which chooses the file and is
  printed in the result line. -/
  cards_left : Int
  /-- Lines the first game prints on the console. -/
  console : List (List Int)
  /-- Whether the file is win.txt (`cards_left == 0`) and not lose.txt. -/
  win_file : Bool
  /-- Deck after the second `shuffle_deck(deck, seed)`. -/
  second_deck : List Int
  /-- Value returned by the second `play(deck, 1)`, which `main` discards. -/
  replay_left : Int
  /-- Lines the second game prints into the file. -/
  file : List (List Int)

/-- The function `main` of patience.c from the point where `seed` is known, run
from the generator state `st`: shuffle, play, shuffle again with the same
seed, play again into the file.  `deck0` is the indeterminate initial content
of its array `deck`, `junk1` and `junk2` those of `visible` in the two
games. -/
def main {σ : Type} (g : Rng σ) (junk1 junk2 deck0 : List Int) (seed : Int) (st : σ) :
    Option MainRun :=
  match play junk1 (shuffle_deck g deck0 seed st).1 1 with
  | none => none
  | some r1 =>
    match play junk2
        (shuffle_deck g (shuffle_deck g deck0 seed st).1 seed
          (shuffle_deck g deck0 seed st).2).1 1 with
    | none => none
    | some r2 =>
      some { first_deck := (shuffle_deck g deck0 seed st).1,
             cards_left := r1.ret,
             console := r1.final.out,
             win_file := decide (r1.ret = 0),
             second_deck :=
               (shuffle_deck g (shuffle_deck g deck0 seed st).1 seed
                 (shuffle_deck g deck0 seed st).2).1,
             replay_left := r2.ret,
             file := r2.final.out }

/-- A sample deck on which the last turn is a sum-to-11 replacement with one
card left in the deck (`shuffle_deck` with seed 25 and the sample generator). -/
def sample_stale_deck : List Int :=
  [1, 9, 5, 10, 12, 12, 8, 4, 10, 7, 11, 3, 1, 5, 2, 4, 5, 9, 7, 12, 13, 3, 6, 8, 4, 9,
   10, 6, 6, 7, 10, 1, 11, 8, 13, 8, 13, 3, 11, 2, 2, 3, 2, 11, 5, 9, 12, 1, 4, 6, 7, 13]

/-- A sample deck on which the last turn is a Jack/Queen/King turn with two
cards left in the deck (`shuffle_deck` with seed 99 and the sample
generator). -/
def sample_short_jqk_deck : List Int :=
  [2, 13, 4, 3, 11, 9, 12, 12, 8, 10, 11, 10, 7, 9, 2, 4, 7, 1, 3, 6, 12, 4, 7, 13, 8, 4,
   3, 7, 1, 5, 1, 2, 8, 9, 6, 5, 5, 3, 10, 1, 13, 8, 9, 6, 2, 5, 13, 12, 11, 11, 10, 6]

/-! # Properties -/

/-! ## Arrays -/

/-- On operands whose sum fits an `int`, the C sum is the exact sum. -/
theorem int_add_exact (a b : Int) (h : INT_MIN ≤ a + b ∧ a + b ≤ INT_MAX) :
    int_add a b = a + b := by
  obtain ⟨h1, h2⟩ := h
  simp only [INT_MIN, INT_MAX] at h1 h2
  unfold int_add
  omega


theorem getD_set_eq (l : List Int) (i k : Nat) (a : Int) :
    (l.set i a).getD k 0 = if i = k ∧ i < l.length then a else l.getD k 0 := by
  simp only [List.getD_eq_getElem?_getD, List.getElem?_set]
  by_cases h : i = k
  · subst h
    by_cases h2 : i < l.length
    · simp [h2]
    · simp [h2, List.getElem?_eq_none (not_lt.mp h2)]
  · simp [h]


theorem getD_eq_getElem_of_lt (l : List Int) (i : Nat) (h : i < l.length) :
    l.getD i 0 = l[i] := by
  simp [List.getD, List.getElem?_eq_getElem h]

theorem boole_le_count (l : List Int) (i : Nat) (h : i < l.length) (b : Int) :
    (if l[i] = b then 1 else 0) ≤ l.count b := by
  split
  · next hb =>
    have : b ∈ l := hb ▸ List.getElem_mem h
    exact List.count_pos_iff.mpr this
  · exact Nat.zero_le _

/-- The three assignments of a swap, `temp = a[i]; a[i] = a[j]; a[j] = temp`,
permute the array. -/
theorem swap_perm (l : List Int) (i j : Nat) (hi : i < l.length) (hj : j < l.length) :
    ((l.set i (l.getD j 0)).set j (l.getD i 0)).Perm l := by
  rw [getD_eq_getElem_of_lt l i hi, getD_eq_getElem_of_lt l j hj]
  rw [List.perm_iff_count]
  intro b
  have h1 := boole_le_count l i hi b
  have h2 := boole_le_count l j hj b
  rw [List.count_set _ _ _ _ (by simpa using hj), List.count_set _ _ _ _ hi]
  by_cases hij : i = j
  · subst hij
    simp only [List.getElem_set_self, beq_iff_eq]
    omega
  · rw [List.getElem_set_ne hij]
    simp only [beq_iff_eq]
    omega

theorem fisher_yates_perm {σ : Type} (g : Rng σ) :
    ∀ (i : Nat) (deck : List Int) (st : σ), i < deck.length →
      (fisher_yates g i deck st).1.Perm deck
  | 0, deck, st, _ => by simp [fisher_yates]
  | i + 1, deck, st, h => by
    have hj : (g.rand st).1 % (i + 1 + 1) < deck.length :=
      lt_of_lt_of_le (Nat.mod_lt _ (by omega)) (by omega)
    have hp := swap_perm deck (i + 1) ((g.rand st).1 % (i + 1 + 1)) h hj
    rw [fisher_yates]
    exact (fisher_yates_perm g i _ _ (by simp; omega)).trans hp

theorem take_succ_set (l : List Int) (i : Nat) (v : Int) (h : i < l.length) :
    (l.set i v).take (i + 1) = l.take i ++ [v] := by
  induction l generalizing i with
  | nil => simp at h
  | cons a t ih =>
    cases i with
    | zero => simp
    | succ i => simpa using ih i (by simpa using h)

theorem fill_deck_eq :
    ∀ (k i : Nat) (deck : List Int), i + k ≤ deck.length →
      fill_deck k i deck =
        deck.take i ++ (List.range' i k).map (fun n => ((n % 13 : Nat) : Int) + 1)
          ++ deck.drop (i + k)
  | 0, i, deck, _ => by simp [fill_deck]
  | k + 1, i, deck, h => by
    rw [fill_deck, fill_deck_eq k (i + 1) _ (by simp; omega)]
    rw [take_succ_set _ _ _ (by omega)]
    simp [List.range'_succ, List.drop_set_of_lt, show i + 1 + k = i + (k + 1) by omega]

theorem fill_deck_sorted (deck : List Int) (h : deck.length = DECK_SIZE) :
    fill_deck DECK_SIZE 0 deck = sorted_deck := by
  rw [fill_deck_eq _ _ _ (by omega)]
  simp [sorted_deck, List.range_eq_range', h]

theorem sorted_deck_count (v : Int) :
    sorted_deck.count v = if 1 ≤ v ∧ v ≤ 13 then 4 else 0 := by
  split
  · next h =>
    obtain ⟨h1, h2⟩ := h
    interval_cases v <;> decide
  · next h =>
    rw [List.count_eq_zero]
    intro hm
    simp only [sorted_deck, List.mem_map, List.mem_range] at hm
    obtain ⟨n, -, rfl⟩ := hm
    omega

/-! ## add_to_11 -/


theorem add_to_11_inner_none (visible : List Int) (i : Nat) :
    ∀ (k j : Nat), add_to_11_inner visible i k j = none ↔
      ∀ m, j ≤ m → m < j + k → int_add (visible.getD i 0) (visible.getD m 0) ≠ 11
  | 0, j => by
    simp only [add_to_11_inner, true_iff]
    intro m h1 h2; omega
  | k + 1, j => by
    rw [add_to_11_inner]
    split
    · next h =>
      simp only [reduceCtorEq, false_iff]
      intro hall
      exact hall j (le_refl _) (by omega) h
    · next h =>
      rw [add_to_11_inner_none visible i k (j + 1)]
      constructor
      · intro hall m h1 h2
        by_cases hm : m = j
        · subst hm; exact h
        · exact hall m (by omega) (by omega)
      · intro hall m h1 h2
        exact hall m (by omega) (by omega)

theorem add_to_11_inner_some (visible : List Int) (i : Nat) :
    ∀ (k j : Nat) (p : Nat × Nat), add_to_11_inner visible i k j = some p →
      p.1 = i ∧ j ≤ p.2 ∧ p.2 < j + k ∧ int_add (visible.getD i 0) (visible.getD p.2 0) = 11 ∧
        ∀ m, j ≤ m → m < p.2 → int_add (visible.getD i 0) (visible.getD m 0) ≠ 11
  | 0, j, p, h => by simp [add_to_11_inner] at h
  | k + 1, j, p, h => by
    rw [add_to_11_inner] at h
    split at h
    · next hs =>
      cases h
      exact ⟨rfl, le_refl _, by omega, hs, fun m h1 h2 => by omega⟩
    · next hs =>
      obtain ⟨a, b, c, d, e⟩ := add_to_11_inner_some visible i k (j + 1) p h
      refine ⟨a, by omega, by omega, d, fun m h1 h2 => ?_⟩
      by_cases hm : m = j
      · subst hm; exact hs
      · exact e m (by omega) h2

theorem add_to_11_outer_none (visible : List Int) (n : Nat) :
    ∀ (k i : Nat), add_to_11_outer visible n k i = none ↔
      ∀ a, i ≤ a → a < i + k → add_to_11_inner visible a (n - (a + 1)) (a + 1) = none
  | 0, i => by
    simp only [add_to_11_outer, true_iff]
    intro a h1 h2; omega
  | k + 1, i => by
    rw [add_to_11_outer]
    cases h : add_to_11_inner visible i (n - (i + 1)) (i + 1) with
    | some p =>
      simp only [reduceCtorEq, false_iff]
      intro hall
      have := hall i (le_refl _) (by omega)
      rw [h] at this
      cases this
    | none =>
      simp only
      rw [add_to_11_outer_none visible n k (i + 1)]
      constructor
      · intro hall a h1 h2
        by_cases ha : a = i
        · subst ha; exact h
        · exact hall a (by omega) (by omega)
      · intro hall a h1 h2
        exact hall a (by omega) (by omega)

theorem add_to_11_outer_some (visible : List Int) (n : Nat) :
    ∀ (k i : Nat) (p : Nat × Nat), add_to_11_outer visible n k i = some p →
      i ≤ p.1 ∧ p.1 < i + k ∧
        add_to_11_inner visible p.1 (n - (p.1 + 1)) (p.1 + 1) = some p ∧
        ∀ a, i ≤ a → a < p.1 → add_to_11_inner visible a (n - (a + 1)) (a + 1) = none
  | 0, i, p, h => by simp [add_to_11_outer] at h
  | k + 1, i, p, h => by
    rw [add_to_11_outer] at h
    cases hi : add_to_11_inner visible i (n - (i + 1)) (i + 1) with
    | some q =>
      have hqp : q = p := by simpa [hi] using h
      subst hqp
      have hq := (add_to_11_inner_some visible i _ _ q hi).1
      refine ⟨by omega, by omega, by rw [hq]; exact hi, fun a h1 h2 => by omega⟩
    | none =>
      rw [hi] at h
      obtain ⟨a, b, c, d⟩ := add_to_11_outer_some visible n k (i + 1) p h
      refine ⟨by omega, by omega, c, fun m h1 h2 => ?_⟩
      by_cases hm : m = i
      · subst hm; exact hi
      · exact d m (by omega) h2

/-- When `add_to_11` returns false, no two of the first `n` cards sum to 11,
and conversely. -/
theorem add_to_11_none_iff (visible : List Int) (n : Nat) :
    add_to_11 visible n = none ↔
      ∀ i j, i < j → j < n → int_add (visible.getD i 0) (visible.getD j 0) ≠ 11 := by
  unfold add_to_11
  rw [add_to_11_outer_none]
  constructor
  · intro hall i j hij hjn
    have := (add_to_11_inner_none visible i _ _).mp (hall i (Nat.zero_le _) (by omega))
    exact this j (by omega) (by omega)
  · intro hall a _ ha
    rw [add_to_11_inner_none]
    intro m h1 h2
    exact hall a m (by omega) (by omega)

/-- The pair reported by `add_to_11`: two positions in order below `n` whose
cards sum to 11, the least such pair in lexicographic order. -/
theorem add_to_11_some_spec (visible : List Int) (n : Nat) (p : Nat × Nat)
    (h : add_to_11 visible n = some p) :
    p.1 < p.2 ∧ p.2 < n ∧ int_add (visible.getD p.1 0) (visible.getD p.2 0) = 11 ∧
      ∀ i j, i < j → j < n → int_add (visible.getD i 0) (visible.getD j 0) = 11 →
        p.1 < i ∨ (p.1 = i ∧ p.2 ≤ j) := by
  unfold add_to_11 at h
  obtain ⟨-, a2, a3, a4⟩ := add_to_11_outer_some visible n n 0 p h
  obtain ⟨b1, b2, b3, b4, b5⟩ := add_to_11_inner_some visible p.1 _ _ p a3
  refine ⟨by omega, by omega, b4, fun i j hij hjn hs => ?_⟩
  by_contra hc
  by_cases hi : i < p.1
  · have := (add_to_11_inner_none visible i _ _).mp (a4 i (Nat.zero_le _) hi)
    exact this j (by omega) (by omega) hs
  · have hip : i = p.1 := by omega
    subst hip
    exact b5 j (by omega) (by omega) hs

theorem add_to_11_inner_congr (v w : List Int) (i : Nat) :
    ∀ (k j : Nat), i < j + k → (∀ m, m < j + k → v.getD m 0 = w.getD m 0) →
      add_to_11_inner v i k j = add_to_11_inner w i k j
  | 0, _, _, _ => rfl
  | k + 1, j, hi, h => by
    rw [add_to_11_inner, add_to_11_inner, h i hi, h j (by omega)]
    rw [add_to_11_inner_congr v w i k (j + 1) (by omega) (fun m hm => h m (by omega))]

theorem add_to_11_outer_congr (v w : List Int) (n : Nat)
    (h : ∀ m, m < n → v.getD m 0 = w.getD m 0) :
    ∀ (k i : Nat), add_to_11_outer v n k i = add_to_11_outer w n k i
  | 0, _ => rfl
  | k + 1, i => by
    rw [add_to_11_outer, add_to_11_outer, add_to_11_outer_congr v w n h k (i + 1)]
    by_cases hi : i + 1 < n
    · rw [add_to_11_inner_congr v w i _ _ (by omega) (fun m hm => h m (by omega))]
    · rw [show n - (i + 1) = 0 by omega]
      rfl

/-- The function `add_to_11` reads only the first `n` entries of `visible`. -/
theorem add_to_11_congr (v w : List Int) (n : Nat)
    (h : ∀ m, m < n → v.getD m 0 = w.getD m 0) : add_to_11 v n = add_to_11 w n :=
  add_to_11_outer_congr v w n h n 0

/-! ## jqk -/


theorem jqk_loop_congr (v w : List Int) :
    ∀ (k i : Nat) (s : JqkScan), (∀ m, m < i + k → v.getD m 0 = w.getD m 0) →
      jqk_loop v k i s = jqk_loop w k i s
  | 0, _, _, _ => rfl
  | k + 1, i, s, h => by
    rw [jqk_loop, jqk_loop, h i (by omega)]
    exact jqk_loop_congr v w k (i + 1) _ (fun m hm => h m (by omega))

/-- The function `jqk` reads only the first `n` entries of `visible`. -/
theorem jqk_congr (v w : List Int) (n : Nat)
    (h : ∀ m, m < n → v.getD m 0 = w.getD m 0) : jqk v n = jqk w n := by
  unfold jqk
  rw [jqk_loop_congr v w n 0 _ (fun m hm => h m (by omega))]

theorem jqk_step_flags (x : Int) (i : Nat) (s : JqkScan) :
    ((if x = 11 then { s with jack := true, jack_pos := i }
      else if x = 12 then { s with queen := true, queen_pos := i }
      else if x = 13 then { s with king := true, king_pos := i }
      else s).jack = true ↔ (s.jack = true ∨ x = 11)) ∧
    ((if x = 11 then { s with jack := true, jack_pos := i }
      else if x = 12 then { s with queen := true, queen_pos := i }
      else if x = 13 then { s with king := true, king_pos := i }
      else s).queen = true ↔ (s.queen = true ∨ x = 12)) ∧
    ((if x = 11 then { s with jack := true, jack_pos := i }
      else if x = 12 then { s with queen := true, queen_pos := i }
      else if x = 13 then { s with king := true, king_pos := i }
      else s).king = true ↔ (s.king = true ∨ x = 13)) := by
  by_cases h11 : x = 11
  · subst h11; simp
  · by_cases h12 : x = 12
    · subst h12; simp
    · by_cases h13 : x = 13
      · subst h13; simp
      · simp [h11, h12, h13]

/-- Flags of the scan: a flag is set at the end exactly when it was set at the
start or the value occurs in the scanned range. -/
theorem jqk_loop_flags (v : List Int) :
    ∀ (k i : Nat) (s : JqkScan),
      ((jqk_loop v k i s).jack = true ↔
        s.jack = true ∨ ∃ m, i ≤ m ∧ m < i + k ∧ v.getD m 0 = 11) ∧
      ((jqk_loop v k i s).queen = true ↔
        s.queen = true ∨ ∃ m, i ≤ m ∧ m < i + k ∧ v.getD m 0 = 12) ∧
      ((jqk_loop v k i s).king = true ↔
        s.king = true ∨ ∃ m, i ≤ m ∧ m < i + k ∧ v.getD m 0 = 13)
  | 0, i, s => by
    simp only [jqk_loop]
    refine ⟨⟨Or.inl, ?_⟩, ⟨Or.inl, ?_⟩, ⟨Or.inl, ?_⟩⟩ <;>
      · rintro (h | ⟨m, h1, h2, -⟩)
        · exact h
        · omega
  | k + 1, i, s => by
    rw [jqk_loop]
    obtain ⟨hj, hq, hk⟩ := jqk_loop_flags v k (i + 1)
      (if v.getD i 0 = 11 then { s with jack := true, jack_pos := i }
       else if v.getD i 0 = 12 then { s with queen := true, queen_pos := i }
       else if v.getD i 0 = 13 then { s with king := true, king_pos := i }
       else s)
    rw [hj, hq, hk]
    have key2 : ∀ (c : Int) (P : Prop),
        ((P ∨ v.getD i 0 = c) ∨ ∃ m, i + 1 ≤ m ∧ m < i + 1 + k ∧ v.getD m 0 = c) ↔
        (P ∨ ∃ m, i ≤ m ∧ m < i + (k + 1) ∧ v.getD m 0 = c) := by
      intro c P
      constructor
      · rintro ((h | h) | ⟨m, h1, h2, h3⟩)
        · exact Or.inl h
        · exact Or.inr ⟨i, le_refl _, by omega, h⟩
        · exact Or.inr ⟨m, by omega, by omega, h3⟩
      · rintro (h | ⟨m, h1, h2, h3⟩)
        · exact Or.inl (Or.inl h)
        · by_cases hm : m = i
          · subst hm; exact Or.inl (Or.inr h3)
          · exact Or.inr ⟨m, by omega, by omega, h3⟩
    obtain ⟨sj, sq, sk⟩ := jqk_step_flags (v.getD i 0) i s
    rw [← key2 11, ← key2 12, ← key2 13, sj, sq, sk]
    exact ⟨Iff.rfl, Iff.rfl, Iff.rfl⟩

/-- Positions of the scan: a position whose flag is set is an index already
scanned that holds the value, and no later scanned index holds it. -/
theorem jqk_loop_pos (v : List Int) :
    ∀ (k i : Nat) (s : JqkScan),
      (s.jack = true → s.jack_pos < i ∧ v.getD s.jack_pos 0 = 11 ∧
        ∀ m, s.jack_pos < m → m < i → v.getD m 0 ≠ 11) →
      (s.queen = true → s.queen_pos < i ∧ v.getD s.queen_pos 0 = 12 ∧
        ∀ m, s.queen_pos < m → m < i → v.getD m 0 ≠ 12) →
      (s.king = true → s.king_pos < i ∧ v.getD s.king_pos 0 = 13 ∧
        ∀ m, s.king_pos < m → m < i → v.getD m 0 ≠ 13) →
      ((jqk_loop v k i s).jack = true →
        (jqk_loop v k i s).jack_pos < i + k ∧ v.getD (jqk_loop v k i s).jack_pos 0 = 11 ∧
        ∀ m, (jqk_loop v k i s).jack_pos < m → m < i + k → v.getD m 0 ≠ 11) ∧
      ((jqk_loop v k i s).queen = true →
        (jqk_loop v k i s).queen_pos < i + k ∧ v.getD (jqk_loop v k i s).queen_pos 0 = 12 ∧
        ∀ m, (jqk_loop v k i s).queen_pos < m → m < i + k → v.getD m 0 ≠ 12) ∧
      ((jqk_loop v k i s).king = true →
        (jqk_loop v k i s).king_pos < i + k ∧ v.getD (jqk_loop v k i s).king_pos 0 = 13 ∧
        ∀ m, (jqk_loop v k i s).king_pos < m → m < i + k → v.getD m 0 ≠ 13)
  | 0, i, s, hj, hq, hk => by
    simp only [jqk_loop, Nat.add_zero]
    exact ⟨hj, hq, hk⟩
  | k + 1, i, s, hj, hq, hk => by
    rw [jqk_loop, show i + (k + 1) = i + 1 + k by omega]
    have ext : ∀ (c : Int) (p : Nat), v.getD i 0 ≠ c →
        (p < i ∧ v.getD p 0 = c ∧ ∀ m, p < m → m < i → v.getD m 0 ≠ c) →
        (p < i + 1 ∧ v.getD p 0 = c ∧ ∀ m, p < m → m < i + 1 → v.getD m 0 ≠ c) := by
      rintro c p hc ⟨h1, h2, h3⟩
      refine ⟨by omega, h2, fun m hm1 hm2 => ?_⟩
      by_cases hmi : m = i
      · subst hmi; exact hc
      · exact h3 m hm1 (by omega)
    have fresh : ∀ (c : Int), v.getD i 0 = c →
        (i < i + 1 ∧ v.getD i 0 = c ∧ ∀ m, i < m → m < i + 1 → v.getD m 0 ≠ c) :=
      fun c hc => ⟨by omega, hc, fun m h1 h2 => by omega⟩
    apply jqk_loop_pos v k (i + 1)
    · by_cases h11 : v.getD i 0 = 11
      · rw [if_pos h11]
        intro _
        exact fresh 11 h11
      · by_cases h12 : v.getD i 0 = 12
        · rw [if_neg h11, if_pos h12]
          intro h
          exact ext 11 _ h11 (hj h)
        · by_cases h13 : v.getD i 0 = 13
          · rw [if_neg h11, if_neg h12, if_pos h13]
            intro h
            exact ext 11 _ h11 (hj h)
          · rw [if_neg h11, if_neg h12, if_neg h13]
            intro h
            exact ext 11 _ h11 (hj h)
    · by_cases h11 : v.getD i 0 = 11
      · rw [if_pos h11]
        intro h
        exact ext 12 _ (by omega) (hq h)
      · by_cases h12 : v.getD i 0 = 12
        · rw [if_neg h11, if_pos h12]
          intro _
          exact fresh 12 h12
        · by_cases h13 : v.getD i 0 = 13
          · rw [if_neg h11, if_neg h12, if_pos h13]
            intro h
            exact ext 12 _ h12 (hq h)
          · rw [if_neg h11, if_neg h12, if_neg h13]
            intro h
            exact ext 12 _ h12 (hq h)
    · by_cases h11 : v.getD i 0 = 11
      · rw [if_pos h11]
        intro h
        exact ext 13 _ (by omega) (hk h)
      · by_cases h12 : v.getD i 0 = 12
        · rw [if_neg h11, if_pos h12]
          intro h
          exact ext 13 _ (by omega) (hk h)
        · by_cases h13 : v.getD i 0 = 13
          · rw [if_neg h11, if_neg h12, if_pos h13]
            intro _
            exact fresh 13 h13
          · rw [if_neg h11, if_neg h12, if_neg h13]
            intro h
            exact ext 13 _ h13 (hk h)

/-- The function `jqk` returns false exactly when 11, 12 and 13 do not all
occur among the first `n` cards. -/
theorem jqk_none_iff (v : List Int) (n : Nat) :
    jqk v n = none ↔
      ¬ ((∃ m, m < n ∧ v.getD m 0 = 11) ∧ (∃ m, m < n ∧ v.getD m 0 = 12) ∧
        (∃ m, m < n ∧ v.getD m 0 = 13)) := by
  obtain ⟨hj, hq, hk⟩ := jqk_loop_flags v n 0 ⟨false, false, false, 0, 0, 0⟩
  simp only [Bool.false_eq_true, false_or, Nat.zero_le, true_and, Nat.zero_add] at hj hq hk
  unfold jqk
  simp only [← hj, ← hq, ← hk]
  split
  · next h =>
    simp only [Bool.and_eq_true] at h
    simp [h.1.1, h.1.2, h.2]
  · next h =>
    simp only [Bool.and_eq_true] at h
    simp only [true_iff]
    intro hc
    exact h ⟨⟨hc.1, hc.2.1⟩, hc.2.2⟩

/-- The positions reported by `jqk` are below `n` and hold 11, 12 and 13, each
at the last index where the value occurs. -/
theorem jqk_some_spec (v : List Int) (n : Nat) (ps : List Nat) (h : jqk v n = some ps) :
    ∃ pj pq pk, ps = [pj, pq, pk] ∧
      (pj < n ∧ v.getD pj 0 = 11 ∧ ∀ m, pj < m → m < n → v.getD m 0 ≠ 11) ∧
      (pq < n ∧ v.getD pq 0 = 12 ∧ ∀ m, pq < m → m < n → v.getD m 0 ≠ 12) ∧
      (pk < n ∧ v.getD pk 0 = 13 ∧ ∀ m, pk < m → m < n → v.getD m 0 ≠ 13) := by
  obtain ⟨hj, hq, hk⟩ := jqk_loop_pos v n 0 ⟨false, false, false, 0, 0, 0⟩
    (by simp) (by simp) (by simp)
  simp only [Nat.zero_add] at hj hq hk
  unfold jqk at h
  simp only at h
  split at h
  · next hb =>
    simp only [Bool.and_eq_true] at hb
    cases h
    exact ⟨_, _, _, rfl, hj hb.1.1, hq hb.1.2, hk hb.2⟩
  · cases h

/-! ## play: invariant and termination -/


@[simp] theorem trace_visible_visible (v : Int) (s : PlayState) :
    (trace_visible v s).visible = s.visible := by
  unfold trace_visible; split <;> rfl

@[simp] theorem trace_visible_num_visible (v : Int) (s : PlayState) :
    (trace_visible v s).num_visible = s.num_visible := by
  unfold trace_visible; split <;> rfl

@[simp] theorem trace_visible_num_piles (v : Int) (s : PlayState) :
    (trace_visible v s).num_piles = s.num_piles := by
  unfold trace_visible; split <;> rfl

@[simp] theorem trace_visible_deck_pos (v : Int) (s : PlayState) :
    (trace_visible v s).deck_pos = s.deck_pos := by
  unfold trace_visible; split <;> rfl

theorem draw_if_left_fields (deck : List Int) (pos : Nat) (s : PlayState) :
    (draw_if_left deck pos s).num_visible = s.num_visible ∧
    (draw_if_left deck pos s).num_piles = s.num_piles ∧
    (draw_if_left deck pos s).out = s.out ∧
    (draw_if_left deck pos s).visible.length = s.visible.length ∧
    (draw_if_left deck pos s).deck_pos =
      if s.deck_pos < DECK_SIZE then s.deck_pos + 1 else s.deck_pos := by
  unfold draw_if_left; split <;> simp

theorem jqk_replace_fields (deck : List Int) :
    ∀ (ps : List Nat) (s : PlayState),
      (jqk_replace deck ps s).num_visible = s.num_visible ∧
      (jqk_replace deck ps s).num_piles = s.num_piles ∧
      (jqk_replace deck ps s).out = s.out ∧
      (jqk_replace deck ps s).visible.length = s.visible.length ∧
      (jqk_replace deck ps s).deck_pos =
        max s.deck_pos (min (s.deck_pos + ps.length) DECK_SIZE)
  | [], s => by simp [jqk_replace]
  | p :: ps, s => by
    rw [jqk_replace]
    obtain ⟨h1, h2, h3, h4, h5⟩ := jqk_replace_fields deck ps
      (if s.deck_pos < DECK_SIZE then
        { s with visible := s.visible.set p (deck.getD s.deck_pos 0),
                 deck_pos := s.deck_pos + 1 }
       else { s with visible := s.visible.set p 0 })
    rw [h1, h2, h3, h4, h5]
    split <;> simp <;> omega

theorem jqk_length (visible : List Int) (n : Nat) (ps : List Nat)
    (h : jqk visible n = some ps) : ps.length = 3 := by
  unfold jqk at h
  simp only at h
  split at h
  · cases h; rfl
  · cases h

/-- Case analysis of one turn. -/
theorem turn_cases (deck : List Int) (v : Int) (s : PlayState) :
    (∃ p1 p2, add_to_11 s.visible s.num_visible = some (p1, p2) ∧
      turn deck v s =
        .next (trace_visible v (draw_if_left deck p2 (draw_if_left deck p1 s)))) ∨
    (add_to_11 s.visible s.num_visible = none ∧
      ∃ ps, jqk s.visible s.num_visible = some ps ∧
        turn deck v s = .next (trace_visible v (jqk_replace deck ps s))) ∨
    (add_to_11 s.visible s.num_visible = none ∧ jqk s.visible s.num_visible = none ∧
      MAX_PILES - 1 < s.num_piles + 1 ∧
      turn deck v s =
        .ret ((DECK_SIZE : Int) - (s.deck_pos : Int)) { s with num_piles := s.num_piles + 1 }) ∨
    (add_to_11 s.visible s.num_visible = none ∧ jqk s.visible s.num_visible = none ∧
      s.num_piles + 1 ≤ MAX_PILES - 1 ∧
      turn deck v s =
        .next (trace_visible v
          { s with visible := s.visible.set s.num_visible (deck.getD s.deck_pos 0),
                   num_visible := s.num_visible + 1,
                   num_piles := s.num_piles + 1,
                   deck_pos := s.deck_pos + 1 })) := by
  unfold turn
  cases h1 : add_to_11 s.visible s.num_visible with
  | some p =>
    obtain ⟨p1, p2⟩ := p
    exact Or.inl ⟨p1, p2, rfl, rfl⟩
  | none =>
    cases h2 : jqk s.visible s.num_visible with
    | some ps => exact Or.inr (Or.inl ⟨rfl, ps, rfl, rfl⟩)
    | none =>
      by_cases h3 : s.num_piles + 1 > MAX_PILES - 1
      · exact Or.inr (Or.inr (Or.inl ⟨rfl, rfl, h3, by simp [h3]⟩))
      · exact Or.inr (Or.inr (Or.inr ⟨rfl, rfl, by omega, by simp [h3]⟩))

theorem turn_progress (deck : List Int) (v : Int) (s s' : PlayState)
    (hlt : s.deck_pos < DECK_SIZE) (h : turn deck v s = .next s') :
    s.deck_pos < s'.deck_pos := by
  rcases turn_cases deck v s with ⟨p1, p2, -, ht⟩ | ⟨-, ps, hj, ht⟩ | ⟨-, -, -, ht⟩ | ⟨-, -, -, ht⟩
  · rw [ht] at h; cases h
    have a := (draw_if_left_fields deck p1 s).2.2.2.2
    have b := (draw_if_left_fields deck p2 (draw_if_left deck p1 s)).2.2.2.2
    rw [trace_visible_deck_pos, b, a]
    simp only [hlt, if_true]
    split <;> omega
  · rw [ht] at h; cases h
    have a := (jqk_replace_fields deck ps s).2.2.2.2
    have := jqk_length _ _ _ hj
    rw [trace_visible_deck_pos, a, this]
    omega
  · rw [ht] at h; cases h
  · rw [ht] at h; cases h
    simp

theorem turn_next_inv (deck : List Int) (v : Int) (s s' : PlayState) (hI : Inv s)
    (hlt : s.deck_pos < DECK_SIZE) (h : turn deck v s = .next s') :
    Inv s' ∧ s'.visible.length = s.visible.length := by
  obtain ⟨i1, i2, i3, i4, i5⟩ := hI
  rcases turn_cases deck v s with ⟨p1, p2, -, ht⟩ | ⟨-, ps, hj, ht⟩ | ⟨-, -, -, ht⟩ | ⟨-, -, hp, ht⟩
  · rw [ht] at h; cases h
    obtain ⟨a1, a2, -, a4, a5⟩ := draw_if_left_fields deck p1 s
    obtain ⟨b1, b2, -, b4, b5⟩ := draw_if_left_fields deck p2 (draw_if_left deck p1 s)
    simp only [Inv, trace_visible_visible, trace_visible_num_visible, trace_visible_num_piles,
      trace_visible_deck_pos, b1, b2, b4, b5, a1, a2, a4, a5, hlt, if_true]
    refine ⟨⟨i1, i2, i3, ?_, ?_⟩, trivial⟩ <;> split <;> omega
  · rw [ht] at h; cases h
    obtain ⟨a1, a2, -, a4, a5⟩ := jqk_replace_fields deck ps s
    simp only [Inv, trace_visible_visible, trace_visible_num_visible, trace_visible_num_piles,
      trace_visible_deck_pos, a1, a2, a4, a5]
    exact ⟨⟨i1, i2, i3, by omega, by omega⟩, trivial⟩
  · rw [ht] at h; cases h
  · rw [ht] at h; cases h
    simp only [Inv, trace_visible_visible, trace_visible_num_visible, trace_visible_num_piles,
      trace_visible_deck_pos, List.length_set]
    simp only [MAX_PILES] at hp i2 ⊢
    exact ⟨⟨by omega, by omega, by omega, by omega, by omega⟩, trivial⟩

theorem turn_ret_spec (deck : List Int) (v : Int) (s s' : PlayState) (r : Int)
    (h : turn deck v s = .ret r s') :
    add_to_11 s.visible s.num_visible = none ∧ jqk s.visible s.num_visible = none ∧
      MAX_PILES - 1 < s.num_piles + 1 ∧ r = (DECK_SIZE : Int) - (s.deck_pos : Int) ∧
      s' = { s with num_piles := s.num_piles + 1 } := by
  rcases turn_cases deck v s with ⟨p1, p2, -, ht⟩ | ⟨-, ps, hj, ht⟩ | ⟨ha, hj, hp, ht⟩ | ⟨-, -, hp, ht⟩
  · rw [ht] at h; cases h
  · rw [ht] at h; cases h
  · rw [ht] at h; cases h
    exact ⟨ha, hj, hp, rfl, rfl⟩
  · rw [ht] at h; cases h

theorem play_loop_spec (deck : List Int) (v : Int) :
    ∀ (fuel : Nat) (s : PlayState) (t : Nat), Inv s → DECK_SIZE - s.deck_pos ≤ fuel →
      ∃ r, play_loop deck v fuel s t = some r ∧ Finished r ∧
        r.turns ≤ t + (DECK_SIZE - s.deck_pos) ∧
        r.final.visible.length = s.visible.length
  | 0, s, t, hI, hf => by
    have : ¬ s.deck_pos < DECK_SIZE := by omega
    refine ⟨⟨0, s, t⟩, by simp [play_loop, this], Or.inl ⟨rfl, ?_, hI⟩, by simp, rfl⟩
    have := hI.2.2.2.2
    simp only at this ⊢
    omega
  | fuel + 1, s, t, hI, hf => by
    by_cases hlt : s.deck_pos < DECK_SIZE
    · rw [play_loop, if_pos hlt]
      cases ht : turn deck v s with
      | next s' =>
        have hp := turn_progress deck v s s' hlt ht
        obtain ⟨hI', hl⟩ := turn_next_inv deck v s s' hI hlt ht
        obtain ⟨r, hr, hF, hT, hL⟩ := play_loop_spec deck v fuel s' (t + 1) hI' (by omega)
        exact ⟨r, hr, hF, by omega, by rw [hL, hl]⟩
      | ret r s' =>
        obtain ⟨ha, hj, hp, hr, hs⟩ := turn_ret_spec deck v s s' r ht
        subst hs
        obtain ⟨i1, i2, i3, i4, i5⟩ := hI
        refine ⟨⟨r, _, t + 1⟩, rfl, Or.inr ⟨hr, hlt, ?_, ?_, ?_, ha, hj⟩, by simp; omega, rfl⟩
        all_goals simp only [MAX_PILES] at hp i2 ⊢
        all_goals omega
    · refine ⟨⟨0, s, t⟩, by simp [play_loop, hlt], Or.inl ⟨rfl, ?_, hI⟩, by simp, rfl⟩
      have := hI.2.2.2.2
      simp only at this ⊢
      omega

theorem play_init_inv (junk deck : List Int) (v : Int) :
    Inv (play_init junk deck v) ∧ (play_init junk deck v).deck_pos = 2 ∧
      (play_init junk deck v).visible.length = junk.length := by
  simp [play_init, Inv, MAX_PILES, DECK_SIZE]

/-- With at least `DECK_SIZE - 2` turns allowed, `play` returns. -/
theorem play_fuel_spec (fuel : Nat) (junk deck : List Int) (v : Int)
    (hf : DECK_SIZE - 2 ≤ fuel) :
    ∃ r, play_fuel fuel junk deck v = some r ∧ Finished r ∧ r.turns ≤ DECK_SIZE - 2 ∧
      r.final.visible.length = junk.length := by
  obtain ⟨hI, hd, hl⟩ := play_init_inv junk deck v
  obtain ⟨r, hr, hF, hT, hL⟩ := play_loop_spec deck v fuel _ 0 hI (by omega)
  exact ⟨r, hr, hF, by omega, by rw [hL, hl]⟩

/-! ## play: the unused slots of visible and the trace flag -/


theorem print_visible_congr (v w : List Int) (n : Nat)
    (h : ∀ k, k < n → v.getD k 0 = w.getD k 0) : print_visible v n = print_visible w n := by
  unfold print_visible
  apply List.map_congr_left
  intro k hk
  exact h k (List.mem_range.mp hk)

theorem trace_visible_out (v : Int) (s : PlayState) :
    (trace_visible v s).out =
      if v ≠ 0 then s.out ++ [print_visible s.visible s.num_visible] else s.out := by
  unfold trace_visible; split <;> rfl

theorem trace_visible_agree (v v' : Int) (s s' : PlayState) (h : Agree s s') :
    Agree (trace_visible v s) (trace_visible v' s') := by
  unfold Agree
  simp only [trace_visible_visible, trace_visible_num_visible, trace_visible_num_piles,
    trace_visible_deck_pos]
  exact h

theorem trace_visible_out_agree (v v' : Int) (s s' : PlayState) (h : Agree s s')
    (hv : v ≠ 0 ↔ v' ≠ 0) (ho : s.out = s'.out) :
    (trace_visible v s).out = (trace_visible v' s').out := by
  rw [trace_visible_out, trace_visible_out, ho, ← h.1,
    print_visible_congr _ _ _ h.2.2.2.2]
  by_cases hz : v ≠ 0
  · rw [if_pos hz, if_pos (hv.mp hz)]
  · rw [if_neg hz, if_neg (fun c => hz (hv.mpr c))]

theorem set_agree (v w : List Int) (n p : Nat) (x : Int) (hl : v.length = w.length)
    (h : ∀ k, k < n → v.getD k 0 = w.getD k 0) :
    ∀ k, k < n → (v.set p x).getD k 0 = (w.set p x).getD k 0 := by
  intro k hk
  rw [getD_set_eq, getD_set_eq, hl, h k hk]

theorem draw_if_left_agree (deck : List Int) (p : Nat) (s s' : PlayState) (h : Agree s s') :
    Agree (draw_if_left deck p s) (draw_if_left deck p s') ∧
      ((draw_if_left deck p s).out = s.out ∧ (draw_if_left deck p s').out = s'.out) := by
  obtain ⟨h1, h2, h3, h4, h5⟩ := h
  unfold draw_if_left
  rw [← h3]
  split
  · exact ⟨⟨h1, h2, by simp [h3], by simp [h4], set_agree _ _ _ _ _ h4 h5⟩, rfl, rfl⟩
  · exact ⟨⟨h1, h2, h3, h4, h5⟩, rfl, rfl⟩

theorem jqk_replace_agree (deck : List Int) :
    ∀ (ps : List Nat) (s s' : PlayState), Agree s s' →
      Agree (jqk_replace deck ps s) (jqk_replace deck ps s')
  | [], _, _, h => h
  | p :: ps, s, s', h => by
    obtain ⟨h1, h2, h3, h4, h5⟩ := h
    rw [jqk_replace, jqk_replace, ← h3]
    apply jqk_replace_agree deck ps
    split
    · exact ⟨h1, h2, by simp [h3], by simp [h4], set_agree _ _ _ _ _ h4 h5⟩
    · exact ⟨h1, h2, rfl, by simp [h4], set_agree _ _ _ _ _ h4 h5⟩

/-- One turn from two agreeing states: both continue or both return the same
value, in agreeing states; with the same tracing they print the same. -/
theorem turn_agree (deck : List Int) (v v' : Int) (s s' : PlayState) (h : Agree s s')
    (hn : s.num_piles + 1 ≤ MAX_PILES - 1 → s.num_visible < s.visible.length) :
    (∃ a a', turn deck v s = .next a ∧ turn deck v' s' = .next a' ∧ Agree a a' ∧
      ((v ≠ 0 ↔ v' ≠ 0) → s.out = s'.out → a.out = a'.out)) ∨
    (∃ r a a', turn deck v s = .ret r a ∧ turn deck v' s' = .ret r a' ∧ Agree a a' ∧
      (s.out = s'.out → a.out = a'.out)) := by
  have ha : add_to_11 s'.visible s'.num_visible = add_to_11 s.visible s.num_visible := by
    rw [← h.1]; exact (add_to_11_congr _ _ _ h.2.2.2.2).symm
  have hj : jqk s'.visible s'.num_visible = jqk s.visible s.num_visible := by
    rw [← h.1]; exact (jqk_congr _ _ _ h.2.2.2.2).symm
  rcases turn_cases deck v s with ⟨p1, p2, c1, ht⟩ | ⟨c1, ps, c2, ht⟩ | ⟨c1, c2, c3, ht⟩ |
    ⟨c1, c2, c3, ht⟩
  · rcases turn_cases deck v' s' with ⟨q1, q2, d1, ht'⟩ | ⟨d1, -⟩ | ⟨d1, -⟩ | ⟨d1, -⟩
    · rw [ha, c1] at d1
      cases d1
      obtain ⟨e1, o1, o1'⟩ := draw_if_left_agree deck p1 s s' h
      obtain ⟨e2, o2, o2'⟩ := draw_if_left_agree deck p2 _ _ e1
      refine Or.inl ⟨_, _, ht, ht', trace_visible_agree v v' _ _ e2, fun hv ho => ?_⟩
      exact trace_visible_out_agree v v' _ _ e2 hv (by rw [o2, o2', o1, o1', ho])
    all_goals (rw [ha, c1] at d1; cases d1)
  · rcases turn_cases deck v' s' with ⟨q1, q2, d1, -⟩ | ⟨-, qs, d2, ht'⟩ | ⟨-, d2, -⟩ | ⟨-, d2, -⟩
    · rw [ha, c1] at d1; cases d1
    · rw [hj, c2] at d2
      cases d2
      have e := jqk_replace_agree deck ps s s' h
      refine Or.inl ⟨_, _, ht, ht', trace_visible_agree v v' _ _ e, fun hv ho => ?_⟩
      exact trace_visible_out_agree v v' _ _ e hv
        (by rw [(jqk_replace_fields deck ps s).2.2.1, (jqk_replace_fields deck ps s').2.2.1, ho])
    all_goals (rw [hj, c2] at d2; cases d2)
  · rcases turn_cases deck v' s' with ⟨q1, q2, d1, -⟩ | ⟨-, qs, d2, -⟩ | ⟨-, -, d3, ht'⟩ |
      ⟨-, -, d3, -⟩
    · rw [ha, c1] at d1; cases d1
    · rw [hj, c2] at d2; cases d2
    · obtain ⟨h1, h2, h3, h4, h5⟩ := h
      refine Or.inr ⟨_, _, { s' with num_piles := s'.num_piles + 1 }, ht, ?_,
        ⟨h1, by simp [h2], h3, h4, h5⟩, fun ho => ho⟩
      rw [ht', h3]
    · rw [← h.2.1] at d3; omega
  · rcases turn_cases deck v' s' with ⟨q1, q2, d1, -⟩ | ⟨-, qs, d2, -⟩ | ⟨-, -, d3, -⟩ |
      ⟨-, -, d3, ht'⟩
    · rw [ha, c1] at d1; cases d1
    · rw [hj, c2] at d2; cases d2
    · rw [← h.2.1] at d3; omega
    · obtain ⟨h1, h2, h3, h4, h5⟩ := h
      have e : Agree
          { s with visible := s.visible.set s.num_visible (deck.getD s.deck_pos 0),
                   num_visible := s.num_visible + 1,
                   num_piles := s.num_piles + 1,
                   deck_pos := s.deck_pos + 1 }
          { s' with visible := s'.visible.set s'.num_visible (deck.getD s'.deck_pos 0),
                    num_visible := s'.num_visible + 1,
                    num_piles := s'.num_piles + 1,
                    deck_pos := s'.deck_pos + 1 } := by
        refine ⟨by simp [h1], by simp [h2], by simp [h3], by simp [h4], ?_⟩
        intro k hk
        simp only at hk ⊢
        rw [getD_set_eq, getD_set_eq, ← h1, ← h3, ← h4]
        by_cases hkn : s.num_visible = k
        · rw [if_pos ⟨hkn, hn c3⟩, if_pos ⟨hkn, hn c3⟩]
        · have : ¬ (s.num_visible = k ∧ s.num_visible < s.visible.length) := fun c => hkn c.1
          rw [if_neg this, if_neg this]
          exact h5 k (by omega)
      refine Or.inl ⟨_, _, ht, ht', trace_visible_agree v v' _ _ e, fun hv ho => ?_⟩
      exact trace_visible_out_agree v v' _ _ e hv ho

/-- Allowing more turns does not change the result of the loop. -/
theorem play_loop_fuel_mono (deck : List Int) (v : Int) :
    ∀ (fuel : Nat) (s : PlayState) (t : Nat) (r : PlayResult),
      play_loop deck v fuel s t = some r → ∀ k, play_loop deck v (fuel + k) s t = some r
  | 0, s, t, r, h, k => by
    rw [play_loop] at h
    split at h
    · cases h
    · next hlt =>
      cases k with
      | zero => simp [play_loop, hlt, h]
      | succ k => rw [Nat.zero_add, play_loop, if_neg hlt]; exact h
  | fuel + 1, s, t, r, h, k => by
    rw [show fuel + 1 + k = (fuel + k) + 1 by omega, play_loop]
    rw [play_loop] at h
    split
    · next hlt =>
      rw [if_pos hlt] at h
      cases ht : turn deck v s with
      | next s' =>
        rw [ht] at h
        exact play_loop_fuel_mono deck v fuel s' (t + 1) r h k
      | ret x s' =>
        rw [ht] at h
        exact h
    · next hlt =>
      rw [if_neg hlt] at h
      exact h

/-- The loop run from two agreeing states gives the same return value and
number of turns; with the same tracing it prints the same lines. -/
theorem play_loop_agree (deck : List Int) (v v' : Int) :
    ∀ (fuel : Nat) (s s' : PlayState) (t : Nat) (r r' : PlayResult),
      Agree s s' → Inv s → s.visible.length = MAX_PILES →
      play_loop deck v fuel s t = some r → play_loop deck v' fuel s' t = some r' →
      r.ret = r'.ret ∧ r.turns = r'.turns ∧ Agree r.final r'.final ∧
        ((v ≠ 0 ↔ v' ≠ 0) → s.out = s'.out → r.final.out = r'.final.out)
  | 0, s, s', t, r, r', ha, _, _, h, h' => by
    rw [play_loop] at h h'
    rw [← ha.2.2.1] at h'
    split at h
    · cases h
    · next hlt =>
      rw [if_neg hlt] at h'
      cases h; cases h'
      exact ⟨rfl, rfl, ha, fun _ ho => ho⟩
  | fuel + 1, s, s', t, r, r', ha, hI, hl, h, h' => by
    rw [play_loop] at h h'
    rw [← ha.2.2.1] at h'
    by_cases hlt : s.deck_pos < DECK_SIZE
    · rw [if_pos hlt] at h h'
      have hn : s.num_piles + 1 ≤ MAX_PILES - 1 → s.num_visible < s.visible.length := by
        intro hp
        have := hI.2.2.1
        simp only [MAX_PILES] at hp hl
        omega
      rcases turn_agree deck v v' s s' ha hn with ⟨a, a', e1, e2, e3, e4⟩ | ⟨x, a, a', e1, e2, e3, e4⟩
      · rw [e1] at h
        rw [e2] at h'
        obtain ⟨hI', hl'⟩ := turn_next_inv deck v s a hI hlt e1
        obtain ⟨k1, k2, k3, k4⟩ := play_loop_agree deck v v' fuel a a' (t + 1) r r' e3 hI'
          (by rw [hl', hl]) h h'
        exact ⟨k1, k2, k3, fun hv ho => k4 hv (e4 hv ho)⟩
      · rw [e1] at h
        rw [e2] at h'
        cases h; cases h'
        exact ⟨rfl, rfl, e3, fun _ ho => e4 ho⟩
    · rw [if_neg hlt] at h h'
      cases h; cases h'
      exact ⟨rfl, rfl, ha, fun _ ho => ho⟩

theorem play_init_agree (junk junk' deck : List Int) (v v' : Int)
    (hj : junk.length = MAX_PILES) (hj' : junk'.length = MAX_PILES) :
    Agree (play_init junk deck v) (play_init junk' deck v') ∧
      ((v ≠ 0 ↔ v' ≠ 0) → (play_init junk deck v).out = (play_init junk' deck v').out) := by
  have e : Agree
      { visible := (junk.set 0 (deck.getD 0 0)).set 1 (deck.getD 1 0),
        num_visible := 2, num_piles := 1, deck_pos := 2, out := [] }
      { visible := (junk'.set 0 (deck.getD 0 0)).set 1 (deck.getD 1 0),
        num_visible := 2, num_piles := 1, deck_pos := 2, out := [] } := by
    refine ⟨rfl, rfl, rfl, by simp [hj, hj'], ?_⟩
    intro k hk
    simp only at hk ⊢
    simp only [MAX_PILES] at hj hj'
    rw [getD_set_eq, getD_set_eq, getD_set_eq, getD_set_eq]
    simp only [List.length_set, hj, hj']
    have hk' : k = 0 ∨ k = 1 := by omega
    rcases hk' with rfl | rfl <;> simp
  unfold play_init
  exact ⟨trace_visible_agree v v' _ _ e,
    fun hv => trace_visible_out_agree v v' _ _ e hv rfl⟩

/-! ## play: a deck with no match among its first nine cards -/

theorem print_visible_eq_take (v deck : List Int) (n : Nat) (hn : n ≤ deck.length)
    (h : ∀ k, k < n → v.getD k 0 = deck.getD k 0) : print_visible v n = deck.take n := by
  rw [print_visible_congr v deck n h]
  unfold print_visible
  apply List.ext_getElem
  · simp [hn]
  · intro i h1 h2
    simp only [List.length_map, List.length_range] at h1
    have hi : i < deck.length := by omega
    simp [List.getElem?_eq_getElem hi]

theorem piles_opened_no_match (deck : List Int) (verbose : Int) (m : Nat) (s : PlayState)
    (hm : m ≤ 7) (hP : PilesOpened deck verbose m s)
    (hsum : ∀ i j, i < j → j < MAX_PILES → int_add (deck.getD i 0) (deck.getD j 0) ≠ 11)
    (hjqk : ¬ ((∃ m, m < MAX_PILES ∧ deck.getD m 0 = 11) ∧
      (∃ m, m < MAX_PILES ∧ deck.getD m 0 = 12) ∧ (∃ m, m < MAX_PILES ∧ deck.getD m 0 = 13))) :
    add_to_11 s.visible s.num_visible = none ∧ jqk s.visible s.num_visible = none := by
  obtain ⟨h1, h2, h3, h4, h5, h6⟩ := hP
  simp only [MAX_PILES] at hsum hjqk
  constructor
  · rw [add_to_11_none_iff, h1]
    intro i j hij hj
    rw [h5 i (by omega), h5 j hj]
    exact hsum i j hij (by omega)
  · rw [jqk_none_iff, h1]
    rintro ⟨⟨a, ha, ea⟩, ⟨b, hb, eb⟩, ⟨c, hc, ec⟩⟩
    rw [h5 a ha] at ea
    rw [h5 b hb] at eb
    rw [h5 c hc] at ec
    exact hjqk ⟨⟨a, by omega, ea⟩, ⟨b, by omega, eb⟩, ⟨c, by omega, ec⟩⟩

theorem piles_opened_turn (deck : List Int) (verbose : Int) (m : Nat) (s : PlayState)
    (hd : deck.length = DECK_SIZE) (hm : m ≤ 6) (hP : PilesOpened deck verbose m s)
    (ha : add_to_11 s.visible s.num_visible = none) (hq : jqk s.visible s.num_visible = none) :
    ∃ s', turn deck verbose s = .next s' ∧ PilesOpened deck verbose (m + 1) s' := by
  obtain ⟨h1, h2, h3, h4, h5, h6⟩ := hP
  rcases turn_cases deck verbose s with ⟨p1, p2, c1, -⟩ | ⟨-, ps, c2, -⟩ | ⟨-, -, c3, -⟩ |
    ⟨-, -, -, ht⟩
  · rw [ha] at c1; cases c1
  · rw [hq] at c2; cases c2
  · simp only [MAX_PILES] at c3; omega
  · refine ⟨_, ht, ?_, ?_, ?_, ?_, ?_, ?_⟩
    · simp [h1]
    · simp [h2]
    · simp [h3]
    · simp [h4]
    · intro k hk
      simp only [trace_visible_visible]
      rw [getD_set_eq, h1, h3]
      by_cases hk2 : m + 2 = k
      · rw [if_pos ⟨hk2, by rw [h4]; simp only [MAX_PILES]; omega⟩, hk2]
      · rw [if_neg (fun c => hk2 c.1)]
        exact h5 k (by omega)
    · rw [trace_visible_out]
      simp only
      by_cases hv : verbose ≠ 0
      · rw [if_pos hv, h6, if_pos hv, if_pos hv, List.range_succ (n := m + 1), List.map_append]
        congr 1
        simp only [List.map_cons, List.map_nil]
        congr 1
        rw [h1, show m + 1 + 2 = m + 2 + 1 by omega]
        apply print_visible_eq_take
        · simp only [DECK_SIZE] at hd; omega
        · intro k hk
          rw [getD_set_eq, h3]
          by_cases hk2 : m + 2 = k
          · rw [if_pos ⟨hk2, by rw [h4]; simp only [MAX_PILES]; omega⟩, hk2]
          · rw [if_neg (fun c => hk2 c.1)]
            exact h5 k (by omega)
      · rw [if_neg hv, h6, if_neg hv, if_neg hv]

theorem piles_opened_init (junk deck : List Int) (verbose : Int)
    (hd : deck.length = DECK_SIZE) (hj : junk.length = MAX_PILES) :
    PilesOpened deck verbose 0 (play_init junk deck verbose) := by
  have hk : ∀ k, k < 0 + 2 →
      ((junk.set 0 (deck.getD 0 0)).set 1 (deck.getD 1 0)).getD k 0 = deck.getD k 0 := by
    intro k hk
    simp only [MAX_PILES] at hj
    rw [getD_set_eq, getD_set_eq]
    simp only [List.length_set, hj]
    have hk' : k = 0 ∨ k = 1 := by omega
    rcases hk' with rfl | rfl <;> simp
  unfold play_init
  refine ⟨by simp, by simp, by simp, by simp [hj], by simpa using hk, ?_⟩
  rw [trace_visible_out]
  simp only
  by_cases hv : verbose ≠ 0
  · rw [if_pos hv, if_pos hv]
    rw [show List.range (0 + 1) = [0] from rfl]
    simp only [List.nil_append, Nat.zero_add, List.map_cons, List.map_nil]
    congr 1
    exact print_visible_eq_take _ deck 2 (by simp only [DECK_SIZE] at hd; omega) hk
  · rw [if_neg hv, if_neg hv]

theorem piles_opened_loop (deck : List Int) (verbose : Int)
    (hd : deck.length = DECK_SIZE)
    (hsum : ∀ i j, i < j → j < MAX_PILES → int_add (deck.getD i 0) (deck.getD j 0) ≠ 11)
    (hjqk : ¬ ((∃ m, m < MAX_PILES ∧ deck.getD m 0 = 11) ∧
      (∃ m, m < MAX_PILES ∧ deck.getD m 0 = 12) ∧ (∃ m, m < MAX_PILES ∧ deck.getD m 0 = 13))) :
    ∀ (d m fuel t : Nat) (s : PlayState), m + d = 7 → PilesOpened deck verbose m s →
      ∃ s7, PilesOpened deck verbose 7 s7 ∧
        play_loop deck verbose (fuel + d + 1) s t =
          some ⟨43, { s7 with num_piles := s7.num_piles + 1 }, t + d + 1⟩
  | 0, m, fuel, t, s, hm, hP => by
    have hm7 : m = 7 := by omega
    subst hm7
    obtain ⟨ha, hq⟩ := piles_opened_no_match deck verbose 7 s (le_refl _) hP hsum hjqk
    obtain ⟨h1, h2, h3, h4, h5, h6⟩ := hP
    refine ⟨s, ⟨h1, h2, h3, h4, h5, h6⟩, ?_⟩
    rw [play_loop, if_pos (by rw [h3]; decide)]
    rcases turn_cases deck verbose s with ⟨p1, p2, c1, -⟩ | ⟨-, ps, c2, -⟩ | ⟨-, -, -, ht⟩ |
      ⟨-, -, c3, -⟩
    · rw [ha] at c1; cases c1
    · rw [hq] at c2; cases c2
    · rw [ht, h3]
      rfl
    · simp only [MAX_PILES] at c3; omega
  | d + 1, m, fuel, t, s, hm, hP => by
    obtain ⟨ha, hq⟩ := piles_opened_no_match deck verbose m s (by omega) hP hsum hjqk
    obtain ⟨s', ht, hP'⟩ := piles_opened_turn deck verbose m s hd (by omega) hP ha hq
    obtain ⟨s7, h7, hl⟩ := piles_opened_loop deck verbose hd hsum hjqk d (m + 1) fuel (t + 1) s'
      (by omega) hP'
    refine ⟨s7, h7, ?_⟩
    rw [show fuel + (d + 1) + 1 = (fuel + d + 1) + 1 by omega, play_loop,
      if_pos (by rw [hP.2.2.1]; simp only [DECK_SIZE]; omega), ht]
    simp only
    rw [hl, show t + 1 + d + 1 = t + (d + 1) + 1 by omega]

theorem eq_take_of_getD (v deck : List Int) (n : Nat) (hv : v.length = n) (hn : n ≤ deck.length)
    (h : ∀ k, k < n → v.getD k 0 = deck.getD k 0) : v = deck.take n := by
  apply List.ext_getElem
  · simp [hv, hn]
  · intro i h1 h2
    have := h i (by omega)
    rw [getD_eq_getElem_of_lt v i h1, getD_eq_getElem_of_lt deck i (by omega)] at this
    simp [this]

/-! ## many_plays -/

theorem game_input_shift {σ : Type} (g : Rng σ) (deck0 : List Int) (st : σ) :
    ∀ k, game_input g deck0 st (k + 1) =
      game_input g (shuffle_deck g deck0 0 st).1 (shuffle_deck g deck0 0 st).2 k
  | 0 => by simp only [game_input]
  | k + 1 => by
    rw [game_input, game_input_shift g deck0 st k]
    conv_rhs => rw [game_input]

/-- The value returned by `play` is a valid index of an array of `DECK_SIZE`
entries. -/
theorem play_ret_index (junk deck : List Int) (v : Int) :
    ∃ r, play junk deck v = some r ∧ 0 ≤ r.ret ∧ r.ret.toNat < DECK_SIZE ∧
      r.ret ≤ (DECK_SIZE : Int) - (MAX_PILES : Int) := by
  obtain ⟨r, hr, hF, -, -⟩ := play_fuel_spec DECK_SIZE junk deck v (by decide)
  refine ⟨r, hr, ?_⟩
  rcases hF with ⟨a, -, -⟩ | ⟨a, b, -, -, c, -⟩
  · rw [a]; decide
  · rw [a]; simp only [DECK_SIZE, MAX_PILES] at b c ⊢; omega

theorem getD_replicate_zero (n r : Nat) : (List.replicate n (0 : Int)).getD r 0 = 0 := by
  simp only [List.getD_eq_getElem?_getD, List.getElem?_replicate]
  split <;> rfl

theorem sum_set_incr : ∀ (l : List Int) (i : Nat), i < l.length →
    (l.set i (l.getD i 0 + 1)).sum = l.sum + 1
  | [], i, h => by simp at h
  | a :: t, 0, _ => by simp; omega
  | a :: t, i + 1, h => by
    have := sum_set_incr t i (by simpa using h)
    simp only [List.set_cons_succ, List.sum_cons, List.getD_cons_succ] at this ⊢
    rw [this]; omega

theorem countP_range_succ (p : Nat → Bool) (k : Nat) :
    (List.range (k + 1)).countP p =
      (if p 0 then 1 else 0) + (List.range k).countP (fun n => p (n + 1)) := by
  rw [List.range_succ_eq_map, List.countP_cons, List.countP_map, Nat.add_comm]
  rfl

theorem tally_step (rem : List Int) (idx x c c' : Nat) (p : Prop) [Decidable p]
    (hidx : idx < rem.length) (hp : p ↔ idx = x) (hc : c = c') :
    (rem.set idx (rem.getD idx 0 + 1)).getD x 0 + (c : Int) =
      rem.getD x 0 + (((if decide p = true then 1 else 0) + c' : Nat) : Int) := by
  subst hc
  rw [getD_set_eq]
  by_cases h : idx = x
  · rw [if_pos ⟨h, hidx⟩, h]
    simp only [hp.mpr h, decide_True, if_true]
    push_cast
    omega
  · rw [if_neg (fun c => h c.1)]
    have : ¬ p := fun c => h (hp.mp c)
    simp only [this, decide_False, Bool.false_eq_true, if_false]
    push_cast
    omega

/-- The loop of `many_plays` finishes; it keeps the size of the array, adds one
to the sum of the entries per game, and adds to entry `r` the number of games
that returned `r`. -/
theorem many_plays_loop_spec {σ : Type} (g : Rng σ) (junk : Nat → List Int) :
    ∀ (k i : Nat) (b : BatchState σ), b.remaining.length = DECK_SIZE →
      ∃ b', many_plays_loop g junk k i b = some b' ∧ b'.remaining.length = DECK_SIZE ∧
        b'.remaining.sum = b.remaining.sum + (k : Int) ∧
        ∀ r : Nat, b'.remaining.getD r 0 = b.remaining.getD r 0 +
          (((List.range k).countP (fun n =>
            decide (game_result g (fun n => junk (i + n)) b.deck b.rng n = some (r : Int))) : Nat)
            : Int) := by
  intro k
  induction k with
  | zero =>
    intro i b hl
    exact ⟨b, by rw [many_plays_loop], hl, by simp, fun r => by simp⟩
  | succ k ih =>
    intro i b hl
    obtain ⟨r, hr, h0, hlt, -⟩ := play_ret_index (junk i) (shuffle_deck g b.deck 0 b.rng).1 0
    rw [many_plays_loop, hr]
    simp only
    obtain ⟨b', hb', hl', hs', hc'⟩ := ih (i + 1)
      { remaining := b.remaining.set r.ret.toNat (b.remaining.getD r.ret.toNat 0 + 1),
        deck := (shuffle_deck g b.deck 0 b.rng).1,
        rng := (shuffle_deck g b.deck 0 b.rng).2 } (by simp [hl])
    refine ⟨b', hb', hl', ?_, fun x => ?_⟩
    · rw [hs']
      simp only
      rw [sum_set_incr _ _ (by rw [hl]; exact hlt)]
      push_cast
      omega
    · rw [hc' x, countP_range_succ]
      simp only
      have hfirst : game_result g (fun n => junk (i + n)) b.deck b.rng 0 = some r.ret := by
        unfold game_result
        rw [game_input]
        simp only [Nat.add_zero]
        rw [hr, Option.map_some']
      refine tally_step _ _ x _ _ _ ?_ ?_ ?_
      · rw [hl]; exact hlt
      · rw [hfirst]
        constructor
        · intro h
          have : r.ret = (x : Int) := by simpa using h
          omega
        · intro h
          have : r.ret = (x : Int) := by omega
          rw [this]
      · apply List.countP_congr
        intro n _
        simp only [game_result, game_input_shift, show i + 1 + n = i + (n + 1) by omega]

theorem many_plays_spec {σ : Type} (g : Rng σ) (junk : Nat → List Int) (deck0 : List Int)
    (N : Int) (st : σ) :
    ∃ t, many_plays g junk deck0 N st = some t ∧ t.1.length = DECK_SIZE ∧
      t.1.sum = (N.toNat : Int) ∧
      ∀ r : Nat, t.1.getD r 0 =
        (((List.range N.toNat).countP (fun k =>
          decide (game_result g junk deck0 st k = some (r : Int))) : Nat) : Int) := by
  obtain ⟨b', hb', hl', hs', hc'⟩ := many_plays_loop_spec g junk N.toNat 0
    { remaining := List.replicate DECK_SIZE 0, deck := deck0, rng := st } (by simp)
  refine ⟨(b'.remaining, b'.rng), by simp [many_plays, hb'], hl', ?_, fun r => ?_⟩
  · rw [hs']; simp
  · rw [hc' r]
    simp only
    rw [getD_replicate_zero]
    simp

/-! # The claims -/

/-- C1: for every seed (zero or not) and every generator (so every sequence of
values returned by `rand()`), the 52 entries that `shuffle_deck` leaves in the
deck array are a permutation of the unshuffled deck, and hold every value
1..13 exactly four times and no other value. -/
theorem shuffle_deck_is_permutation {σ : Type} (g : Rng σ) (deck : List Int) (seed : Int)
    (st : σ) (hd : deck.length = DECK_SIZE) :
    (shuffle_deck g deck seed st).1.Perm sorted_deck ∧
      (shuffle_deck g deck seed st).1.length = DECK_SIZE ∧
      ∀ v : Int, (shuffle_deck g deck seed st).1.count v = if 1 ≤ v ∧ v ≤ 13 then 4 else 0 := by
  have hp : (shuffle_deck g deck seed st).1.Perm sorted_deck := by
    unfold shuffle_deck
    rw [fill_deck_sorted deck hd]
    exact fisher_yates_perm g _ _ _ (by simp [sorted_deck, DECK_SIZE])
  refine ⟨hp, ?_, fun v => ?_⟩
  · rw [hp.length_eq]; simp [sorted_deck]
  · rw [hp.count_eq, sorted_deck_count]

theorem shuffle_deck_is_permutation_witness :
    (List.replicate 52 (0 : Int)).length = DECK_SIZE ∧
      (shuffle_deck sample_rng (List.replicate 52 0) 0 7).1.Perm sorted_deck ∧
      (shuffle_deck sample_rng (List.replicate 52 0) 0 7).1.length = DECK_SIZE ∧
      ∀ v : Int, (shuffle_deck sample_rng (List.replicate 52 0) 0 7).1.count v =
        if 1 ≤ v ∧ v ≤ 13 then 4 else 0 :=
  ⟨by decide, shuffle_deck_is_permutation sample_rng (List.replicate 52 0) 0 7 (by decide)⟩

/-- C2: for a nonzero seed, `shuffle_deck(deck, seed)` leaves the same deck (and
the same generator state) whatever the generator state and the contents of
`deck` were before the call. -/
theorem shuffle_deck_seed_deterministic {σ : Type} (g : Rng σ) (seed : Int)
    (deck1 deck2 : List Int) (st1 st2 : σ) (hs : seed ≠ 0)
    (h1 : deck1.length = DECK_SIZE) (h2 : deck2.length = DECK_SIZE) :
    shuffle_deck g deck1 seed st1 = shuffle_deck g deck2 seed st2 := by
  unfold shuffle_deck
  rw [fill_deck_sorted deck1 h1, fill_deck_sorted deck2 h2, if_pos hs, if_pos hs]

theorem shuffle_deck_seed_deterministic_witness :
    (42 : Int) ≠ 0 ∧ sample_deck.length = DECK_SIZE ∧
      (List.replicate 52 (0 : Int)).length = DECK_SIZE ∧
      shuffle_deck sample_rng sample_deck 42 7 =
        shuffle_deck sample_rng (List.replicate 52 0) 42 1000 :=
  ⟨by decide, by decide, by decide,
    shuffle_deck_seed_deterministic sample_rng 42 sample_deck (List.replicate 52 0) 7 1000
      (by decide) (by decide) (by decide)⟩

/-- C3: for every content of the deck array, in particular every 52-card deck
(and every initial content of `visible`), `play` returns, and the value returned is 52 minus the deck cursor; it
is 0 exactly when the cursor reached 52; when it is not 0 it is strictly
positive and was returned with nine cards visible and no match among them,
that is when a new pile was needed. -/
theorem play_returns_zero_iff_deck_used (junk deck : List Int) (verbose : Int) :
    ∃ r, play junk deck verbose = some r ∧
      (r.ret = 0 ↔ r.final.deck_pos = DECK_SIZE) ∧
      r.ret = (DECK_SIZE : Int) - (r.final.deck_pos : Int) ∧
      (r.ret ≠ 0 → 0 < r.ret ∧ r.final.deck_pos < DECK_SIZE ∧
        r.final.num_visible = MAX_PILES ∧
        add_to_11 r.final.visible r.final.num_visible = none ∧
        jqk r.final.visible r.final.num_visible = none) := by
  obtain ⟨r, hr, hF, -, -⟩ := play_fuel_spec DECK_SIZE junk deck verbose (by decide)
  refine ⟨r, hr, ?_⟩
  rcases hF with ⟨a, b, -⟩ | ⟨a, b, c, -, -, e, f⟩
  · refine ⟨by simp [a, b], by rw [a, b]; simp, fun h => absurd a h⟩
  · have hpos : 0 < r.ret := by rw [a]; omega
    refine ⟨⟨fun h => by omega, fun h => by omega⟩, a, fun _ => ⟨hpos, b, c, e, f⟩⟩

/-- C4: for every array of integers passed as the deck, in particular every
array of 52 integers and every valid deck, `play` returns a value between 0
and 52. -/
theorem play_result_range (junk deck : List Int) (verbose : Int) :
    ∃ r, play junk deck verbose = some r ∧ 0 ≤ r.ret ∧ r.ret ≤ 52 := by
  obtain ⟨r, hr, hF, -, -⟩ := play_fuel_spec DECK_SIZE junk deck verbose (by decide)
  refine ⟨r, hr, ?_⟩
  rcases hF with ⟨a, -, -⟩ | ⟨a, b, -⟩
  · rw [a]; decide
  · rw [a]; simp only [DECK_SIZE] at b ⊢; omega

/-- C5: on every deck `play` terminates.  A turn of the main loop that does not return moves
the deck cursor forward by at least one card; `play` returns after at most
52 + 9 turns with the cursor at most 52, and allowing any number of turns from
50 up gives that same result. -/
theorem play_terminates (junk deck : List Int) (verbose : Int) :
    (∀ s s', s.deck_pos < DECK_SIZE → turn deck verbose s = .next s' →
        s.deck_pos < s'.deck_pos) ∧
      ∃ r, play junk deck verbose = some r ∧ r.turns ≤ DECK_SIZE + MAX_PILES ∧
        r.final.deck_pos ≤ DECK_SIZE ∧
        ∀ fuel, DECK_SIZE - 2 ≤ fuel → play_fuel fuel junk deck verbose = some r := by
  refine ⟨fun s s' hlt h => turn_progress deck verbose s s' hlt h, ?_⟩
  obtain ⟨r, hr, hF, hT, -⟩ := play_fuel_spec (DECK_SIZE - 2) junk deck verbose (le_refl _)
  have hmono : ∀ k, play_fuel (DECK_SIZE - 2 + k) junk deck verbose = some r :=
    fun k => play_loop_fuel_mono deck verbose _ _ _ r hr k
  refine ⟨r, hmono 2, by simp only [DECK_SIZE, MAX_PILES] at hT ⊢; omega, ?_, ?_⟩
  · rcases hF with ⟨-, b, -⟩ | ⟨-, b, -⟩ <;> omega
  · intro fuel hf
    have := hmono (fuel - (DECK_SIZE - 2))
    rwa [show DECK_SIZE - 2 + (fuel - (DECK_SIZE - 2)) = fuel by omega] at this

/-- C10: two runs of `play` on the same deck return the same count whatever the
trace flags and whatever the unused slots of `visible` held at the start (so
`play(deck, 1)` and `play(deck, 0)` return the same), and when both runs trace
they print the same lines. -/
theorem play_deterministic (junk1 junk2 deck : List Int) (verbose1 verbose2 : Int)
    (hj1 : junk1.length = MAX_PILES) (hj2 : junk2.length = MAX_PILES) :
    ∃ r1 r2, play junk1 deck verbose1 = some r1 ∧ play junk2 deck verbose2 = some r2 ∧
      r1.ret = r2.ret ∧
      (verbose1 ≠ 0 → verbose2 ≠ 0 → r1.final.out = r2.final.out) := by
  obtain ⟨r1, hr1, -⟩ := play_fuel_spec DECK_SIZE junk1 deck verbose1 (by decide)
  obtain ⟨r2, hr2, -⟩ := play_fuel_spec DECK_SIZE junk2 deck verbose2 (by decide)
  obtain ⟨e, eo⟩ := play_init_agree junk1 junk2 deck verbose1 verbose2 hj1 hj2
  obtain ⟨hI, -, hl⟩ := play_init_inv junk1 deck verbose1
  obtain ⟨k1, -, -, k4⟩ := play_loop_agree deck verbose1 verbose2 DECK_SIZE _ _ 0 r1 r2 e hI
    (by rw [hl, hj1]) hr1 hr2
  refine ⟨r1, r2, hr1, hr2, k1, fun h1 h2 => ?_⟩
  have hv : verbose1 ≠ 0 ↔ verbose2 ≠ 0 := ⟨fun _ => h2, fun _ => h1⟩
  exact k4 hv (eo hv)

theorem play_deterministic_witness :
    sample_junk.length = MAX_PILES ∧ sample_junk2.length = MAX_PILES ∧
    ∃ r1 r2, play sample_junk sample_deck 1 = some r1 ∧
      play sample_junk2 sample_deck 0 = some r2 ∧ r1.ret = r2.ret ∧
      ((1 : Int) ≠ 0 → (0 : Int) ≠ 0 → r1.final.out = r2.final.out) :=
  ⟨by decide, by decide,
    play_deterministic sample_junk sample_junk2 sample_deck 1 0 (by decide) (by decide)⟩

/-- C6: on a 52-card deck whose first nine cards hold no two cards summing to
11 and not a Jack, a Queen and a King all together, `play` opens piles until
the first nine cards of the deck are visible (printing the growing rows when
tracing) and returns 43 = 52 - 9 on its eighth turn, with nine cards drawn.
The cards are card values: `hfit` asks that no sum of two of the first nine
overflows an `int`, which holds of every deck of values 1..13. -/
theorem play_no_match_loses_with_43 (junk deck : List Int) (verbose : Int)
    (hd : deck.length = DECK_SIZE) (hj : junk.length = MAX_PILES)
    (hfit : ∀ j, j < MAX_PILES → ∀ i, i < j →
      INT_MIN ≤ deck.getD i 0 + deck.getD j 0 ∧ deck.getD i 0 + deck.getD j 0 ≤ INT_MAX)
    (hsum : ∀ j, j < MAX_PILES → ∀ i, i < j → deck.getD i 0 + deck.getD j 0 ≠ 11)
    (hjqk : ¬ ((∃ m, m < MAX_PILES ∧ deck.getD m 0 = 11) ∧
      (∃ m, m < MAX_PILES ∧ deck.getD m 0 = 12) ∧ (∃ m, m < MAX_PILES ∧ deck.getD m 0 = 13))) :
    ∃ r, play junk deck verbose = some r ∧ r.ret = 43 ∧
      r.ret = (DECK_SIZE : Int) - (r.final.deck_pos : Int) ∧ r.final.deck_pos = 9 ∧
      r.final.num_visible = 9 ∧ r.final.visible = deck.take 9 ∧ r.turns = 8 ∧
      r.final.out =
        if verbose ≠ 0 then (List.range 8).map (fun k => deck.take (k + 2)) else [] := by
  obtain ⟨s7, ⟨h1, h2, h3, h4, h5, h6⟩, hl⟩ := piles_opened_loop deck verbose hd
    (fun i j hij hj9 => by
      rw [int_add_exact _ _ (hfit j hj9 i hij)]
      exact hsum j hj9 i hij) hjqk
    7 0 44 0 (play_init junk deck verbose) rfl (piles_opened_init junk deck verbose hd hj)
  refine ⟨_, hl, rfl, ?_, h3, h1, ?_, rfl, h6⟩
  · simp only [h3, DECK_SIZE]; decide
  · exact eq_take_of_getD _ deck 9 h4 (by simp only [DECK_SIZE] at hd; omega) h5

theorem play_no_match_loses_with_43_witness :
    sample_losing_deck.length = DECK_SIZE ∧ sample_junk.length = MAX_PILES ∧
    (∀ j, j < MAX_PILES → ∀ i, i < j →
      INT_MIN ≤ sample_losing_deck.getD i 0 + sample_losing_deck.getD j 0 ∧
        sample_losing_deck.getD i 0 + sample_losing_deck.getD j 0 ≤ INT_MAX) ∧
    (∀ j, j < MAX_PILES → ∀ i, i < j →
      sample_losing_deck.getD i 0 + sample_losing_deck.getD j 0 ≠ 11) ∧
    ¬ ((∃ m, m < MAX_PILES ∧ sample_losing_deck.getD m 0 = 11) ∧
      (∃ m, m < MAX_PILES ∧ sample_losing_deck.getD m 0 = 12) ∧
      (∃ m, m < MAX_PILES ∧ sample_losing_deck.getD m 0 = 13)) ∧
    ∃ r, play sample_junk sample_losing_deck 1 = some r ∧ r.ret = 43 ∧
      r.ret = (DECK_SIZE : Int) - (r.final.deck_pos : Int) ∧ r.final.deck_pos = 9 ∧
      r.final.num_visible = 9 ∧ r.final.visible = sample_losing_deck.take 9 ∧ r.turns = 8 ∧
      r.final.out =
        if (1 : Int) ≠ 0 then (List.range 8).map (fun k => sample_losing_deck.take (k + 2))
        else [] :=
  ⟨by decide, by decide, by decide, by decide, by decide,
    play_no_match_loses_with_43 sample_junk sample_losing_deck 1 (by decide) (by decide)
      (by decide) (by decide) (by decide)⟩

/-- C7: for every `N >= 0` and every generator state, `many_plays(N)` returns a
tally whose entries sum to exactly `N`; for `N = 0` every entry is 0. -/
theorem many_plays_tally_sum {σ : Type} (g : Rng σ) (junk : Nat → List Int)
    (deck0 : List Int) (N : Int) (st : σ) (hN : 0 ≤ N) :
    ∃ t, many_plays g junk deck0 N st = some t ∧ t.1.sum = N ∧
      (N = 0 → t.1 = List.replicate DECK_SIZE 0) := by
  obtain ⟨t, ht, -, hs, -⟩ := many_plays_spec g junk deck0 N st
  refine ⟨t, ht, by rw [hs]; omega, fun h0 => ?_⟩
  subst h0
  simp only [many_plays, Int.toNat_zero, many_plays_loop, Option.map_some',
    Option.some.injEq] at ht
  rw [← ht]

theorem many_plays_tally_sum_witness :
    (0 : Int) ≤ 3 ∧
    ∃ t, many_plays sample_rng (fun _ => sample_junk) sample_deck 3 7 = some t ∧
      t.1.sum = 3 ∧ ((3 : Int) = 0 → t.1 = List.replicate DECK_SIZE 0) :=
  ⟨by decide, many_plays_tally_sum sample_rng (fun _ => sample_junk) sample_deck 3 7 (by decide)⟩

/-- C8: entry `r` of the tally returned by `many_plays(N)` is the number of games
`k < N` whose `play` result, not tracing, is `r`, game `k` playing the deck
that `shuffle_deck` with seed 0 makes from the generator state left by game
`k - 1` (see `game_input`). -/
theorem many_plays_tally_counts {σ : Type} (g : Rng σ) (junk : Nat → List Int)
    (deck0 : List Int) (N : Int) (st : σ) :
    ∃ t, many_plays g junk deck0 N st = some t ∧
      ∀ r : Nat, t.1.getD r 0 =
        (((List.range N.toNat).countP (fun k =>
          decide (game_result g junk deck0 st k = some (r : Int))) : Nat) : Int) := by
  obtain ⟨t, ht, -, -, hc⟩ := many_plays_spec g junk deck0 N st
  exact ⟨t, ht, hc⟩

/-- C9 (what the code does): the array returned by `many_plays` has `DECK_SIZE`,
that is 52, entries, indices 0 to 51; it has no entry at index 52. -/
theorem many_plays_tally_has_52_entries {σ : Type} (g : Rng σ) (junk : Nat → List Int)
    (deck0 : List Int) (N : Int) (st : σ) :
    ∃ t, many_plays g junk deck0 N st = some t ∧ t.1.length = 52 ∧ t.1[52]? = none := by
  obtain ⟨t, ht, hl, -, -⟩ := many_plays_spec g junk deck0 N st
  refine ⟨t, ht, hl, ?_⟩
  rw [List.getElem?_eq_none]
  rw [hl]
  decide

/-! ## Concrete runs -/

/-- The sample deck is the one `shuffle_deck` makes with seed 42 and the sample
generator. -/
theorem shuffle_deck_sample :
    (shuffle_deck sample_rng (List.replicate 52 0) 42 0).1 = sample_deck := by
  decide

/-- On the sample deck `play` loses on its eleventh turn with 37 cards left and
nine cards visible. -/
theorem play_sample_deck :
    (play sample_junk sample_deck 0).map
        (fun r => (r.ret, r.turns, r.final.deck_pos, r.final.num_visible)) =
      some (37, 11, 15, 9) := by
  decide

/-- The lines printed on the sample deck. -/
theorem play_sample_trace :
    (play sample_junk sample_deck 1).map (fun r => r.final.out) =
      some [[5, 4], [5, 4, 12], [5, 4, 12, 3], [5, 4, 12, 3, 8], [5, 4, 12, 6, 4],
        [13, 4, 12, 1, 4], [13, 4, 12, 1, 4, 6], [13, 4, 12, 1, 4, 6, 1],
        [13, 4, 12, 1, 4, 6, 1, 5], [13, 4, 12, 1, 4, 4, 1, 5],
        [13, 4, 12, 1, 4, 4, 1, 5, 2]] := by
  decide

/-! # Turns, program points, trace and driver -/

/-- C13 (refuted): the entries `INT_MIN` and `INT_MIN + 11` are valid `int`s
and do not sum to 11 (their sum is `11 - 2^32`), yet on the array holding them
`add_to_11` returns true with the pair (0, 1): the 32-bit sum of line 28
wraps to 11. -/
theorem add_to_11_overflow_pair :
    INT_MIN ≤ -2147483648 ∧ (-2147483637 : Int) ≤ INT_MAX ∧
    add_to_11 [-2147483648, -2147483637] 2 = some (0, 1) ∧
    ¬ ∃ i j, i < j ∧ j < 2 ∧
      ([-2147483648, -2147483637] : List Int).getD i 0 +
        ([-2147483648, -2147483637] : List Int).getD j 0 = 11 := by
  refine ⟨by decide, by decide, by decide, ?_⟩
  rintro ⟨i, j, hij, hj, h⟩
  have hj1 : j = 1 := by omega
  have hi0 : i = 0 := by omega
  subst hj1 hi0
  revert h
  decide

/-- C13 (amended): on a visible array in which no sum of two of the first `n`
entries overflows an `int` (every array of card values is one), `add_to_11`
returns true exactly when two of the first `n` entries, at indices
`i < j < n`, sum to 11; the pair it then reports is such a pair, with
`pos1 < pos2`, and is the least one in lexicographic order (smallest `i`, then
smallest `j`). -/
theorem add_to_11_finds_least_pair (visible : List Int) (n : Nat)
    (hfit : ∀ j, j < n → ∀ i, i < j →
      INT_MIN ≤ visible.getD i 0 + visible.getD j 0 ∧
        visible.getD i 0 + visible.getD j 0 ≤ INT_MAX) :
    ((add_to_11 visible n).isSome = true ↔
        ∃ i j, i < j ∧ j < n ∧ visible.getD i 0 + visible.getD j 0 = 11) ∧
      ∀ pos1 pos2, add_to_11 visible n = some (pos1, pos2) →
        pos1 < pos2 ∧ pos2 < n ∧ visible.getD pos1 0 + visible.getD pos2 0 = 11 ∧
          ∀ i j, i < j → j < n → visible.getD i 0 + visible.getD j 0 = 11 →
            pos1 < i ∨ (pos1 = i ∧ pos2 ≤ j) := by
  have hx : ∀ i j, i < j → j < n →
      int_add (visible.getD i 0) (visible.getD j 0) = visible.getD i 0 + visible.getD j 0 :=
    fun i j hij hj => int_add_exact _ _ (hfit j hj i hij)
  constructor
  · cases h : add_to_11 visible n with
    | none =>
      have hn := (add_to_11_none_iff visible n).mp h
      simp only [Option.isSome_none, Bool.false_eq_true, false_iff]
      rintro ⟨i, j, hij, hj, hs⟩
      exact hn i j hij hj (by rw [hx i j hij hj]; exact hs)
    | some p =>
      obtain ⟨a, b, c, -⟩ := add_to_11_some_spec visible n p h
      simp only [Option.isSome_some, true_iff]
      exact ⟨p.1, p.2, a, b, by rw [← hx p.1 p.2 a b]; exact c⟩
  · intro pos1 pos2 h
    obtain ⟨a, b, c, d⟩ := add_to_11_some_spec visible n (pos1, pos2) h
    simp only at a b c d
    refine ⟨a, b, by rw [← hx pos1 pos2 a b]; exact c, fun i j hij hj hs => ?_⟩
    exact d i j hij hj (by rw [hx i j hij hj]; exact hs)

theorem add_to_11_finds_least_pair_witness :
    (∀ j, j < 5 → ∀ i, i < j →
      INT_MIN ≤ ([5, 4, 12, 3, 8] : List Int).getD i 0 + ([5, 4, 12, 3, 8] : List Int).getD j 0 ∧
        ([5, 4, 12, 3, 8] : List Int).getD i 0 + ([5, 4, 12, 3, 8] : List Int).getD j 0 ≤
          INT_MAX) ∧
    (((add_to_11 [5, 4, 12, 3, 8] 5).isSome = true ↔
        ∃ i j, i < j ∧ j < 5 ∧
          ([5, 4, 12, 3, 8] : List Int).getD i 0 + ([5, 4, 12, 3, 8] : List Int).getD j 0 = 11) ∧
      ∀ pos1 pos2, add_to_11 [5, 4, 12, 3, 8] 5 = some (pos1, pos2) →
        pos1 < pos2 ∧ pos2 < 5 ∧
          ([5, 4, 12, 3, 8] : List Int).getD pos1 0 +
            ([5, 4, 12, 3, 8] : List Int).getD pos2 0 = 11 ∧
          ∀ i j, i < j → j < 5 →
            ([5, 4, 12, 3, 8] : List Int).getD i 0 +
              ([5, 4, 12, 3, 8] : List Int).getD j 0 = 11 →
            pos1 < i ∨ (pos1 = i ∧ pos2 ≤ j)) :=
  ⟨by decide, add_to_11_finds_least_pair [5, 4, 12, 3, 8] 5 (by decide)⟩

/-- C18: `jqk` returns true exactly when 11, 12 and 13 all occur among the first
`n` entries; the positions it then reports are three distinct indices below
`n` holding 11, 12 and 13 in that order, each the highest index at which its
value occurs. -/
theorem jqk_finds_last_positions (visible : List Int) (n : Nat) :
    ((jqk visible n).isSome = true ↔
        (∃ m, m < n ∧ visible.getD m 0 = 11) ∧ (∃ m, m < n ∧ visible.getD m 0 = 12) ∧
          (∃ m, m < n ∧ visible.getD m 0 = 13)) ∧
      ∀ positions, jqk visible n = some positions →
        ∃ pj pq pk, positions = [pj, pq, pk] ∧ pj ≠ pq ∧ pj ≠ pk ∧ pq ≠ pk ∧
          (pj < n ∧ visible.getD pj 0 = 11 ∧ ∀ m, pj < m → m < n → visible.getD m 0 ≠ 11) ∧
          (pq < n ∧ visible.getD pq 0 = 12 ∧ ∀ m, pq < m → m < n → visible.getD m 0 ≠ 12) ∧
          (pk < n ∧ visible.getD pk 0 = 13 ∧ ∀ m, pk < m → m < n → visible.getD m 0 ≠ 13) := by
  constructor
  · cases h : jqk visible n with
    | none =>
      have hn := (jqk_none_iff visible n).mp h
      simp only [Option.isSome_none, Bool.false_eq_true, false_iff]
      exact hn
    | some ps =>
      obtain ⟨pj, pq, pk, -, a, b, c⟩ := jqk_some_spec visible n ps h
      simp only [Option.isSome_some, true_iff]
      exact ⟨⟨pj, a.1, a.2.1⟩, ⟨pq, b.1, b.2.1⟩, ⟨pk, c.1, c.2.1⟩⟩
  · intro positions h
    obtain ⟨pj, pq, pk, e, a, b, c⟩ := jqk_some_spec visible n positions h
    refine ⟨pj, pq, pk, e, ?_, ?_, ?_, a, b, c⟩
    · intro hc; have := a.2.1; rw [hc, b.2.1] at this; omega
    · intro hc; have := a.2.1; rw [hc, c.2.1] at this; omega
    · intro hc; have := b.2.1; rw [hc, c.2.1] at this; omega

theorem draw_if_left_pos (deck : List Int) (pos : Nat) (s : PlayState)
    (h : s.deck_pos < DECK_SIZE) :
    draw_if_left deck pos s =
      { s with visible := s.visible.set pos (deck.getD s.deck_pos 0),
               deck_pos := s.deck_pos + 1 } := by
  unfold draw_if_left; rw [if_pos h]

theorem draw_if_left_neg (deck : List Int) (pos : Nat) (s : PlayState)
    (h : ¬ s.deck_pos < DECK_SIZE) : draw_if_left deck pos s = s := by
  unfold draw_if_left; rw [if_neg h]

/-- C14: in a turn where `add_to_11` reports the pair `(pos1, pos2)`, the visible
count is unchanged; with at least two cards left slot `pos1` gets the next
card, slot `pos2` the one after and no other slot changes; with exactly one
card left slot `pos1` gets it and every other slot, `pos2` included, keeps its
value. -/
theorem turn_pair_replacement (deck : List Int) (verbose : Int) (s : PlayState)
    (pos1 pos2 : Nat) (hlt : s.deck_pos < DECK_SIZE)
    (hp : add_to_11 s.visible s.num_visible = some (pos1, pos2))
    (hl : s.num_visible ≤ s.visible.length) :
    pos1 < pos2 ∧ pos2 < s.num_visible ∧
    ∃ s', turn deck verbose s = .next s' ∧ s'.num_visible = s.num_visible ∧
      s'.num_piles = s.num_piles ∧ s'.visible.length = s.visible.length ∧
      (s.deck_pos + 2 ≤ DECK_SIZE →
        s'.deck_pos = s.deck_pos + 2 ∧
        s'.visible.getD pos1 0 = deck.getD s.deck_pos 0 ∧
        s'.visible.getD pos2 0 = deck.getD (s.deck_pos + 1) 0 ∧
        ∀ k, k ≠ pos1 → k ≠ pos2 → s'.visible.getD k 0 = s.visible.getD k 0) ∧
      (s.deck_pos + 1 = DECK_SIZE →
        s'.deck_pos = DECK_SIZE ∧
        s'.visible.getD pos1 0 = deck.getD s.deck_pos 0 ∧
        s'.visible.getD pos2 0 = s.visible.getD pos2 0 ∧
        ∀ k, k ≠ pos1 → s'.visible.getD k 0 = s.visible.getD k 0) := by
  obtain ⟨h12, h2n, -, -⟩ := add_to_11_some_spec _ _ _ hp
  simp only at h12 h2n
  refine ⟨h12, h2n, ?_⟩
  rcases turn_cases deck verbose s with ⟨p1, p2, c1, ht⟩ | ⟨c1, -⟩ | ⟨c1, -⟩ | ⟨c1, -⟩
  · rw [hp] at c1
    cases c1
    refine ⟨_, ht, ?_, ?_, ?_, ?_, ?_⟩
    · rw [trace_visible_num_visible, (draw_if_left_fields _ _ _).1, (draw_if_left_fields _ _ _).1]
    · rw [trace_visible_num_piles, (draw_if_left_fields _ _ _).2.1,
        (draw_if_left_fields _ _ _).2.1]
    · rw [trace_visible_visible, (draw_if_left_fields _ _ _).2.2.2.1,
        (draw_if_left_fields _ _ _).2.2.2.1]
    · intro h2
      rw [trace_visible_deck_pos, trace_visible_visible, draw_if_left_pos deck pos1 s hlt,
        draw_if_left_pos deck pos2 _ (by simp only; omega)]
      simp only
      refine ⟨trivial, ?_, ?_, fun k hk1 hk2 => ?_⟩
      · rw [getD_set_eq, if_neg (fun c => by omega), getD_set_eq,
          if_pos ⟨rfl, by omega⟩]
      · rw [getD_set_eq, if_pos ⟨rfl, by rw [List.length_set]; omega⟩]
      · rw [getD_set_eq, if_neg (fun c => hk2 c.1.symm), getD_set_eq,
          if_neg (fun c => hk1 c.1.symm)]
    · intro h1
      rw [trace_visible_deck_pos, trace_visible_visible, draw_if_left_pos deck pos1 s hlt,
        draw_if_left_neg deck pos2 _ (by simp only; omega)]
      simp only
      refine ⟨h1, ?_, ?_, fun k hk1 => ?_⟩
      · rw [getD_set_eq, if_pos ⟨rfl, by omega⟩]
      · rw [getD_set_eq, if_neg (fun c => by omega)]
      · rw [getD_set_eq, if_neg (fun c => hk1 c.1.symm)]
  all_goals (rw [hp] at c1; cases c1)

theorem turn_pair_replacement_witness :
    sample_last_card_state.deck_pos < DECK_SIZE ∧
    add_to_11 sample_last_card_state.visible sample_last_card_state.num_visible =
      some (4, 8) ∧
    sample_last_card_state.num_visible ≤ sample_last_card_state.visible.length ∧
    (4 < 8 ∧ 8 < sample_last_card_state.num_visible ∧
    ∃ s', turn sample_deck 1 sample_last_card_state = .next s' ∧
      s'.num_visible = sample_last_card_state.num_visible ∧
      s'.num_piles = sample_last_card_state.num_piles ∧
      s'.visible.length = sample_last_card_state.visible.length ∧
      (sample_last_card_state.deck_pos + 2 ≤ DECK_SIZE →
        s'.deck_pos = sample_last_card_state.deck_pos + 2 ∧
        s'.visible.getD 4 0 = sample_deck.getD sample_last_card_state.deck_pos 0 ∧
        s'.visible.getD 8 0 = sample_deck.getD (sample_last_card_state.deck_pos + 1) 0 ∧
        ∀ k, k ≠ 4 → k ≠ 8 →
          s'.visible.getD k 0 = sample_last_card_state.visible.getD k 0) ∧
      (sample_last_card_state.deck_pos + 1 = DECK_SIZE →
        s'.deck_pos = DECK_SIZE ∧
        s'.visible.getD 4 0 = sample_deck.getD sample_last_card_state.deck_pos 0 ∧
        s'.visible.getD 8 0 = sample_last_card_state.visible.getD 8 0 ∧
        ∀ k, k ≠ 4 → s'.visible.getD k 0 = sample_last_card_state.visible.getD k 0)) :=
  ⟨by decide, by decide, by decide,
    turn_pair_replacement sample_deck 1 sample_last_card_state 4 8 (by decide) (by decide)
      (by decide)⟩

/-- Once the deck cursor is at `DECK_SIZE` the loop of `play` runs no turn and
returns 0. -/
theorem play_loop_deck_used (deck : List Int) (v : Int) (fuel : Nat) (s : PlayState) (t : Nat)
    (h : ¬ s.deck_pos < DECK_SIZE) : play_loop deck v fuel s t = some ⟨0, s, t⟩ := by
  cases fuel with
  | zero => rw [play_loop, if_neg h]
  | succ f => rw [play_loop, if_neg h]

/-- C15 (refuted): there is no deck and no turn of `play` in which the sum-to-11
replacement skips its second draw (the deck ran out after the first) and the
loop condition still holds afterwards, so that a further turn would read the
stale slot. -/
theorem no_turn_after_stale_slot :
    ¬ ∃ (deck : List Int) (verbose : Int) (s s' : PlayState) (pos1 pos2 : Nat),
        s.deck_pos < DECK_SIZE ∧
        add_to_11 s.visible s.num_visible = some (pos1, pos2) ∧
        ¬ (draw_if_left deck pos1 s).deck_pos < DECK_SIZE ∧
        turn deck verbose s = .next s' ∧ s'.deck_pos < DECK_SIZE := by
  rintro ⟨deck, verbose, s, s', pos1, pos2, hlt, hp, hskip, ht, hnext⟩
  rcases turn_cases deck verbose s with ⟨p1, p2, c1, ht'⟩ | ⟨c1, -⟩ | ⟨c1, -⟩ | ⟨c1, -⟩
  · rw [hp] at c1
    cases c1
    rw [ht'] at ht
    cases ht
    rw [trace_visible_deck_pos, draw_if_left_neg deck pos2 _ hskip] at hnext
    exact hskip hnext
  all_goals (rw [hp] at c1; cases c1)

/-- C15 (amended): when the sum-to-11 replacement finds the pair `(pos1, pos2)`
with exactly one card left in the deck, slot `pos1` gets that card, slot
`pos2` keeps its stale value, the deck cursor is `DECK_SIZE`, and `play` runs
no further turn: the loop ends there and 0 is returned. -/
theorem stale_slot_ends_game (deck : List Int) (verbose : Int) (s : PlayState)
    (pos1 pos2 : Nat) (h1 : s.deck_pos + 1 = DECK_SIZE)
    (hp : add_to_11 s.visible s.num_visible = some (pos1, pos2))
    (hl : s.num_visible ≤ s.visible.length) :
    ∃ s', turn deck verbose s = .next s' ∧ s'.deck_pos = DECK_SIZE ∧
      s'.visible.getD pos1 0 = deck.getD s.deck_pos 0 ∧
      s'.visible.getD pos2 0 = s.visible.getD pos2 0 ∧
      ∀ fuel t, play_loop deck verbose fuel s' t = some ⟨0, s', t⟩ := by
  obtain ⟨h12, h2n, -, -⟩ := add_to_11_some_spec _ _ _ hp
  simp only at h12 h2n
  have hlt : s.deck_pos < DECK_SIZE := by omega
  rcases turn_cases deck verbose s with ⟨p1, p2, c1, ht⟩ | ⟨c1, -⟩ | ⟨c1, -⟩ | ⟨c1, -⟩
  · rw [hp] at c1
    cases c1
    have hd : (trace_visible verbose
        (draw_if_left deck pos2 (draw_if_left deck pos1 s))).deck_pos = DECK_SIZE := by
      rw [trace_visible_deck_pos, draw_if_left_pos deck pos1 s hlt,
        draw_if_left_neg deck pos2 _ (by simp only; omega)]
      exact h1
    refine ⟨_, ht, hd, ?_, ?_, fun fuel t => play_loop_deck_used deck verbose fuel _ t
      (by rw [hd]; exact lt_irrefl _)⟩
    · rw [trace_visible_visible, draw_if_left_pos deck pos1 s hlt,
        draw_if_left_neg deck pos2 _ (by simp only; omega)]
      simp only
      rw [getD_set_eq, if_pos ⟨rfl, by omega⟩]
    · rw [trace_visible_visible, draw_if_left_pos deck pos1 s hlt,
        draw_if_left_neg deck pos2 _ (by simp only; omega)]
      simp only
      rw [getD_set_eq, if_neg (fun c => by omega)]
  all_goals (rw [hp] at c1; cases c1)

theorem stale_slot_ends_game_witness :
    sample_last_card_state.deck_pos + 1 = DECK_SIZE ∧
    add_to_11 sample_last_card_state.visible sample_last_card_state.num_visible =
      some (4, 8) ∧
    sample_last_card_state.num_visible ≤ sample_last_card_state.visible.length ∧
    ∃ s', turn sample_deck 0 sample_last_card_state = .next s' ∧ s'.deck_pos = DECK_SIZE ∧
      s'.visible.getD 4 0 = sample_deck.getD sample_last_card_state.deck_pos 0 ∧
      s'.visible.getD 8 0 = sample_last_card_state.visible.getD 8 0 ∧
      ∀ fuel t, play_loop sample_deck 0 fuel s' t = some ⟨0, s', t⟩ :=
  ⟨by decide, by decide, by decide,
    stale_slot_ends_game sample_deck 0 sample_last_card_state 4 8 (by decide) (by decide)
      (by decide)⟩

/-- The three iterations of the Jack/Queen/King loop, written out. -/
theorem jqk_replace_three (deck : List Int) (pj pq pk : Nat) (s : PlayState)
    (h : s.deck_pos ≤ DECK_SIZE) :
    jqk_replace deck [pj, pq, pk] s =
      { s with
        visible := ((s.visible.set pj (jqk_card deck s.deck_pos 0)).set pq
          (jqk_card deck s.deck_pos 1)).set pk (jqk_card deck s.deck_pos 2),
        deck_pos := min (s.deck_pos + 3) DECK_SIZE } := by
  simp only [jqk_replace, jqk_card, Nat.add_zero]
  by_cases h0 : s.deck_pos < DECK_SIZE
  · by_cases h1 : s.deck_pos + 1 < DECK_SIZE
    · by_cases h2 : s.deck_pos + 2 < DECK_SIZE
      · simp only [h0, h1, h2, if_true, show s.deck_pos + 1 + 1 = s.deck_pos + 2 by omega,
          show s.deck_pos + 2 + 1 = s.deck_pos + 3 by omega,
          show min (s.deck_pos + 3) DECK_SIZE = s.deck_pos + 3 by omega]
      · simp only [h0, h1, h2, if_true, if_false,
          show s.deck_pos + 1 + 1 = s.deck_pos + 2 by omega,
          show min (s.deck_pos + 3) DECK_SIZE = s.deck_pos + 2 by omega]
    · have h2 : ¬ s.deck_pos + 2 < DECK_SIZE := by omega
      simp only [h0, h1, h2, if_true, if_false,
        show min (s.deck_pos + 3) DECK_SIZE = s.deck_pos + 1 by omega]
  · have h1 : ¬ s.deck_pos + 1 < DECK_SIZE := by omega
    have h2 : ¬ s.deck_pos + 2 < DECK_SIZE := by omega
    simp only [h0, h1, h2, if_false,
      show min (s.deck_pos + 3) DECK_SIZE = s.deck_pos by omega]

/-- A Jack/Queen/King turn: the slots reported by `jqk` are `[pj, pq, pk]`, the
last Jack, the last Queen and the last King; iteration 0 stores into the
Jack's slot, iteration 1 into the Queen's, iteration 2 into the King's, and no
other slot changes. -/
theorem turn_jqk_spec (deck : List Int) (verbose : Int) (s : PlayState) (positions : List Nat)
    (hlt : s.deck_pos < DECK_SIZE)
    (ha : add_to_11 s.visible s.num_visible = none)
    (hj : jqk s.visible s.num_visible = some positions)
    (hl : s.num_visible ≤ s.visible.length) :
    ∃ pj pq pk s', positions = [pj, pq, pk] ∧
      s.visible.getD pj 0 = 11 ∧ s.visible.getD pq 0 = 12 ∧ s.visible.getD pk 0 = 13 ∧
      pj < s.num_visible ∧ pq < s.num_visible ∧ pk < s.num_visible ∧
      turn deck verbose s = .next s' ∧ s'.num_visible = s.num_visible ∧
      s'.num_piles = s.num_piles ∧ s'.visible.length = s.visible.length ∧
      s'.deck_pos = min (s.deck_pos + 3) DECK_SIZE ∧
      s'.visible.getD pj 0 = jqk_card deck s.deck_pos 0 ∧
      s'.visible.getD pq 0 = jqk_card deck s.deck_pos 1 ∧
      s'.visible.getD pk 0 = jqk_card deck s.deck_pos 2 ∧
      ∀ k, k ≠ pj → k ≠ pq → k ≠ pk → s'.visible.getD k 0 = s.visible.getD k 0 := by
  obtain ⟨pj, pq, pk, e, a, b, c⟩ := jqk_some_spec _ _ _ hj
  subst e
  have hjq : pj ≠ pq := by intro hc; have := a.2.1; rw [hc, b.2.1] at this; omega
  have hjk : pj ≠ pk := by intro hc; have := a.2.1; rw [hc, c.2.1] at this; omega
  have hqk : pq ≠ pk := by intro hc; have := b.2.1; rw [hc, c.2.1] at this; omega
  rcases turn_cases deck verbose s with ⟨p1, p2, c1, -⟩ | ⟨-, ps, c2, ht⟩ | ⟨-, c2, -⟩ |
    ⟨-, c2, -⟩
  · rw [ha] at c1; cases c1
  · rw [hj] at c2
    cases c2
    refine ⟨pj, pq, pk, _, rfl, a.2.1, b.2.1, c.2.1, a.1, b.1, c.1, ht, ?_, ?_, ?_, ?_, ?_, ?_,
      ?_, ?_⟩
    · rw [trace_visible_num_visible, (jqk_replace_fields _ _ _).1]
    · rw [trace_visible_num_piles, (jqk_replace_fields _ _ _).2.1]
    · rw [trace_visible_visible, (jqk_replace_fields _ _ _).2.2.2.1]
    · rw [trace_visible_deck_pos, jqk_replace_three deck pj pq pk s (by omega)]
    · rw [trace_visible_visible, jqk_replace_three deck pj pq pk s (by omega)]
      simp only
      rw [getD_set_eq, if_neg (fun h => hjk h.1.symm), getD_set_eq,
        if_neg (fun h => hjq h.1.symm), getD_set_eq, if_pos ⟨rfl, by omega⟩]
    · rw [trace_visible_visible, jqk_replace_three deck pj pq pk s (by omega)]
      simp only
      rw [getD_set_eq, if_neg (fun h => hqk h.1.symm), getD_set_eq,
        if_pos ⟨rfl, by rw [List.length_set]; omega⟩]
    · rw [trace_visible_visible, jqk_replace_three deck pj pq pk s (by omega)]
      simp only
      rw [getD_set_eq, if_pos ⟨rfl, by rw [List.length_set, List.length_set]; omega⟩]
    · intro k h1 h2 h3
      rw [trace_visible_visible, jqk_replace_three deck pj pq pk s (by omega)]
      simp only
      rw [getD_set_eq, if_neg (fun h => h3 h.1.symm), getD_set_eq,
        if_neg (fun h => h2 h.1.symm), getD_set_eq, if_neg (fun h => h1 h.1.symm)]
  · rw [hj] at c2; cases c2
  · rw [hj] at c2; cases c2

/-- C16 (refuted): on `sample_kqj_deck` the second turn of `play` finds King,
Queen, Jack in slots 0, 1, 2 and no pair summing to 11; `jqk` reports the
slots as `[2, 1, 0]`, the cards drawn are 1, 2, 3 in that order, and
afterwards slot 0, the matched slot with the lowest index, holds 3, the third
card drawn, while slot 2 holds 1, the first. -/
theorem jqk_turn_not_in_slot_order :
    ∃ s1 s2, turn sample_kqj_deck 1 (play_init sample_junk sample_kqj_deck 1) = .next s1 ∧
      s1.num_visible = 3 ∧ s1.deck_pos = 3 ∧
      s1.visible.take 3 = [13, 12, 11] ∧
      add_to_11 s1.visible s1.num_visible = none ∧
      jqk s1.visible s1.num_visible = some [2, 1, 0] ∧
      sample_kqj_deck.getD 3 0 = 1 ∧ sample_kqj_deck.getD 4 0 = 2 ∧
      sample_kqj_deck.getD 5 0 = 3 ∧
      turn sample_kqj_deck 1 s1 = .next s2 ∧ s2.deck_pos = 6 ∧
      s2.visible.take 3 = [3, 2, 1] ∧
      s2.visible.getD 0 0 ≠ sample_kqj_deck.getD s1.deck_pos 0 :=
  ⟨{ visible := [13, 12, 11, 5, 5, 6, 12, -1, 3], num_visible := 3, num_piles := 2,
     deck_pos := 3, out := [[13, 12], [13, 12, 11]] },
   { visible := [3, 2, 1, 5, 5, 6, 12, -1, 3], num_visible := 3, num_piles := 2,
     deck_pos := 6, out := [[13, 12], [13, 12, 11], [3, 2, 1]] },
   by decide⟩

/-- C16 (amended): in a turn where no pair sums to 11, Jack, Queen and King are
all visible and at least three cards are left, the first card drawn goes to
the slot of the last Jack, the second to the slot of the last Queen and the
third to the slot of the last King, whatever the order of these three slots;
no other slot changes. -/
theorem turn_jqk_replacement (deck : List Int) (verbose : Int) (s : PlayState)
    (positions : List Nat) (h3 : s.deck_pos + 3 ≤ DECK_SIZE)
    (ha : add_to_11 s.visible s.num_visible = none)
    (hj : jqk s.visible s.num_visible = some positions)
    (hl : s.num_visible ≤ s.visible.length) :
    ∃ pj pq pk s', positions = [pj, pq, pk] ∧
      s.visible.getD pj 0 = 11 ∧ s.visible.getD pq 0 = 12 ∧ s.visible.getD pk 0 = 13 ∧
      turn deck verbose s = .next s' ∧ s'.num_visible = s.num_visible ∧
      s'.deck_pos = s.deck_pos + 3 ∧
      s'.visible.getD pj 0 = deck.getD s.deck_pos 0 ∧
      s'.visible.getD pq 0 = deck.getD (s.deck_pos + 1) 0 ∧
      s'.visible.getD pk 0 = deck.getD (s.deck_pos + 2) 0 ∧
      ∀ k, k ≠ pj → k ≠ pq → k ≠ pk → s'.visible.getD k 0 = s.visible.getD k 0 := by
  obtain ⟨pj, pq, pk, s', e, vj, vq, vk, -, -, -, ht, hn, -, -, hd, cj, cq, ck, hrest⟩ :=
    turn_jqk_spec deck verbose s positions (by omega) ha hj hl
  refine ⟨pj, pq, pk, s', e, vj, vq, vk, ht, hn, ?_, ?_, ?_, ?_, hrest⟩
  · rw [hd]; omega
  · rw [cj, jqk_card, if_pos (by omega), Nat.add_zero]
  · rw [cq, jqk_card, if_pos (by omega)]
  · rw [ck, jqk_card, if_pos (by omega)]

theorem turn_jqk_replacement_witness :
    (3 : Nat) + 3 ≤ DECK_SIZE ∧
    add_to_11 [13, 12, 11, 5, 5, 6, 12, -1, 3] 3 = none ∧
    jqk [13, 12, 11, 5, 5, 6, 12, -1, 3] 3 = some [2, 1, 0] ∧
    (3 : Nat) ≤ ([13, 12, 11, 5, 5, 6, 12, -1, 3] : List Int).length ∧
    ∃ pj pq pk s', [2, 1, 0] = [pj, pq, pk] ∧
      ([13, 12, 11, 5, 5, 6, 12, -1, 3] : List Int).getD pj 0 = 11 ∧
      ([13, 12, 11, 5, 5, 6, 12, -1, 3] : List Int).getD pq 0 = 12 ∧
      ([13, 12, 11, 5, 5, 6, 12, -1, 3] : List Int).getD pk 0 = 13 ∧
      turn sample_kqj_deck 0 ⟨[13, 12, 11, 5, 5, 6, 12, -1, 3], 3, 2, 3, []⟩ = .next s' ∧
      s'.num_visible = 3 ∧ s'.deck_pos = 3 + 3 ∧
      s'.visible.getD pj 0 = sample_kqj_deck.getD 3 0 ∧
      s'.visible.getD pq 0 = sample_kqj_deck.getD (3 + 1) 0 ∧
      s'.visible.getD pk 0 = sample_kqj_deck.getD (3 + 2) 0 ∧
      ∀ k, k ≠ pj → k ≠ pq → k ≠ pk →
        s'.visible.getD k 0 = ([13, 12, 11, 5, 5, 6, 12, -1, 3] : List Int).getD k 0 :=
  ⟨by decide, by decide, by decide, by decide,
    turn_jqk_replacement sample_kqj_deck 0 ⟨[13, 12, 11, 5, 5, 6, 12, -1, 3], 3, 2, 3, []⟩
      [2, 1, 0] (by decide) (by decide) (by decide) (by decide)⟩

/-- C17 (refuted): on `sample_short_jqk_deck`, a shuffled deck, the last turn of
`play` is a Jack/Queen/King turn with two cards left, 10 and 6.  The visible
row is `[12, 13, 13, 1, 11, 12, 11, 5]`, no pair sums to 11, and `jqk` reports
the slots `[6, 5, 2]`, so the matched slots are 2, 5 and 6.  After the turn
slot 2, the first of them, holds 0, and slot 6, the last of them, holds the
card 10: the row is `[12, 13, 0, 1, 11, 6, 10, 5]`. -/
theorem jqk_short_deck_not_in_slot_order :
    (shuffle_deck sample_rng (List.replicate 52 0) 99 0).1 = sample_short_jqk_deck ∧
    (play sample_junk sample_short_jqk_deck 1).map
        (fun r => (r.ret, r.turns, r.final.out.reverse.take 2)) =
      some (0, 27, [[12, 13, 0, 1, 11, 6, 10, 5], [12, 13, 13, 1, 11, 12, 11, 5]]) ∧
    add_to_11 [12, 13, 13, 1, 11, 12, 11, 5, 3] 8 = none ∧
    jqk [12, 13, 13, 1, 11, 12, 11, 5, 3] 8 = some [6, 5, 2] ∧
    sample_short_jqk_deck.getD 50 0 = 10 ∧ sample_short_jqk_deck.getD 51 0 = 6 ∧
    ∃ s', turn sample_short_jqk_deck 0 ⟨[12, 13, 13, 1, 11, 12, 11, 5, 3], 8, 7, 50, []⟩ =
        .next s' ∧
      s'.deck_pos = 52 ∧ s'.visible.getD 2 0 = 0 ∧ s'.visible.getD 5 0 = 6 ∧
      s'.visible.getD 6 0 = 10 :=
  ⟨by decide, by decide, by decide, by decide, by decide, by decide,
    ⟨{ visible := [12, 13, 0, 1, 11, 6, 10, 5, 3], num_visible := 8, num_piles := 7,
       deck_pos := 52, out := [] }, by decide⟩⟩

/-- C17 (amended): in a Jack/Queen/King turn with one or two cards left in the
deck, the matched slots are served in the order `positions[0]`,
`positions[1]`, `positions[2]`, that is Jack, Queen, King, whatever the order
of these slots: with one card left the Jack's slot gets it and the
Queen's and King's slots are set to 0; with two cards left the Jack's and the
Queen's slots get them and the King's slot is set to 0.  No other slot
changes and the deck cursor ends at `DECK_SIZE`. -/
theorem turn_jqk_short_deck (deck : List Int) (verbose : Int) (s : PlayState)
    (positions : List Nat)
    (hk : s.deck_pos + 1 = DECK_SIZE ∨ s.deck_pos + 2 = DECK_SIZE)
    (ha : add_to_11 s.visible s.num_visible = none)
    (hj : jqk s.visible s.num_visible = some positions)
    (hl : s.num_visible ≤ s.visible.length) :
    ∃ pj pq pk s', positions = [pj, pq, pk] ∧
      s.visible.getD pj 0 = 11 ∧ s.visible.getD pq 0 = 12 ∧ s.visible.getD pk 0 = 13 ∧
      turn deck verbose s = .next s' ∧ s'.num_visible = s.num_visible ∧
      s'.deck_pos = DECK_SIZE ∧
      (s.deck_pos + 1 = DECK_SIZE →
        s'.visible.getD pj 0 = deck.getD s.deck_pos 0 ∧
        s'.visible.getD pq 0 = 0 ∧ s'.visible.getD pk 0 = 0) ∧
      (s.deck_pos + 2 = DECK_SIZE →
        s'.visible.getD pj 0 = deck.getD s.deck_pos 0 ∧
        s'.visible.getD pq 0 = deck.getD (s.deck_pos + 1) 0 ∧ s'.visible.getD pk 0 = 0) ∧
      ∀ k, k ≠ pj → k ≠ pq → k ≠ pk → s'.visible.getD k 0 = s.visible.getD k 0 := by
  obtain ⟨pj, pq, pk, s', e, vj, vq, vk, -, -, -, ht, hn, -, -, hd, cj, cq, ck, hrest⟩ :=
    turn_jqk_spec deck verbose s positions (by omega) ha hj hl
  refine ⟨pj, pq, pk, s', e, vj, vq, vk, ht, hn, ?_, ?_, ?_, hrest⟩
  · rw [hd]; omega
  · intro h1
    refine ⟨?_, ?_, ?_⟩
    · rw [cj, jqk_card, if_pos (by omega), Nat.add_zero]
    · rw [cq, jqk_card, if_neg (by omega)]
    · rw [ck, jqk_card, if_neg (by omega)]
  · intro h2
    refine ⟨?_, ?_, ?_⟩
    · rw [cj, jqk_card, if_pos (by omega), Nat.add_zero]
    · rw [cq, jqk_card, if_pos (by omega)]
    · rw [ck, jqk_card, if_neg (by omega)]

theorem turn_jqk_short_deck_witness :
    (sample_jqk_state.deck_pos + 1 = DECK_SIZE ∨ sample_jqk_state.deck_pos + 2 = DECK_SIZE) ∧
    add_to_11 sample_jqk_state.visible sample_jqk_state.num_visible = none ∧
    jqk sample_jqk_state.visible sample_jqk_state.num_visible = some [2, 0, 1] ∧
    sample_jqk_state.num_visible ≤ sample_jqk_state.visible.length ∧
    ∃ pj pq pk s', [2, 0, 1] = [pj, pq, pk] ∧
      sample_jqk_state.visible.getD pj 0 = 11 ∧ sample_jqk_state.visible.getD pq 0 = 12 ∧
      sample_jqk_state.visible.getD pk 0 = 13 ∧
      turn sample_deck 0 sample_jqk_state = .next s' ∧
      s'.num_visible = sample_jqk_state.num_visible ∧ s'.deck_pos = DECK_SIZE ∧
      (sample_jqk_state.deck_pos + 1 = DECK_SIZE →
        s'.visible.getD pj 0 = sample_deck.getD sample_jqk_state.deck_pos 0 ∧
        s'.visible.getD pq 0 = 0 ∧ s'.visible.getD pk 0 = 0) ∧
      (sample_jqk_state.deck_pos + 2 = DECK_SIZE →
        s'.visible.getD pj 0 = sample_deck.getD sample_jqk_state.deck_pos 0 ∧
        s'.visible.getD pq 0 = sample_deck.getD (sample_jqk_state.deck_pos + 1) 0 ∧
        s'.visible.getD pk 0 = 0) ∧
      ∀ k, k ≠ pj → k ≠ pq → k ≠ pk →
        s'.visible.getD k 0 = sample_jqk_state.visible.getD k 0 :=
  ⟨by decide, by decide, by decide, by decide,
    turn_jqk_short_deck sample_deck 0 sample_jqk_state [2, 0, 1] (by decide) (by decide)
      (by decide) (by decide)⟩

theorem loop_head_inv (junk deck : List Int) (verbose : Int) (s : PlayState)
    (h : LoopHead junk deck verbose s) :
    Inv s ∧ s.visible.length = junk.length := by
  induction h with
  | init =>
    obtain ⟨a, -, c⟩ := play_init_inv junk deck verbose
    exact ⟨a, c⟩
  | step s s' _ hlt ht ih =>
    obtain ⟨a, b⟩ := turn_next_inv deck verbose s s' ih.1 hlt ht
    exact ⟨a, by rw [b, ih.2]⟩

/-- The final state of `play` is one of the points. -/
theorem play_loop_point (junk deck : List Int) (verbose : Int) :
    ∀ (fuel : Nat) (s : PlayState) (t : Nat) (r : PlayResult),
      LoopHead junk deck verbose s → play_loop deck verbose fuel s t = some r →
      Point junk deck verbose r.final
  | 0, s, t, r, hs, h => by
    rw [play_loop] at h
    split at h
    · cases h
    · cases h; exact Point.head _ hs
  | fuel + 1, s, t, r, hs, h => by
    rw [play_loop] at h
    by_cases hlt : s.deck_pos < DECK_SIZE
    · rw [if_pos hlt] at h
      cases ht : turn deck verbose s with
      | next s' =>
        rw [ht] at h
        exact play_loop_point junk deck verbose fuel s' (t + 1) r
          (LoopHead.step s s' hs hlt ht) h
      | ret x s' =>
        rw [ht] at h
        cases h
        exact Point.returned s s' x hs hlt ht
    · rw [if_neg hlt] at h
      cases h; exact Point.head _ hs

theorem point_bounds (junk deck : List Int) (verbose : Int) (s : PlayState)
    (h : Point junk deck verbose s) :
    2 ≤ s.num_visible ∧ s.num_visible ≤ MAX_PILES ∧ 2 ≤ s.deck_pos ∧
      s.deck_pos ≤ DECK_SIZE ∧ s.visible.length = junk.length := by
  cases h with
  | head s hs =>
    obtain ⟨⟨i1, i2, i3, i4, i5⟩, hl⟩ := loop_head_inv junk deck verbose s hs
    exact ⟨i1, i2, by omega, i5, hl⟩
  | pair_first s pos1 pos2 hs hlt hp =>
    obtain ⟨⟨i1, i2, i3, i4, i5⟩, hl⟩ := loop_head_inv junk deck verbose s hs
    obtain ⟨a1, -, -, a4, a5⟩ := draw_if_left_fields deck pos1 s
    rw [a1, a4, a5, if_pos hlt]
    exact ⟨i1, i2, by omega, by omega, hl⟩
  | pair_second s pos1 pos2 hs hlt hp =>
    obtain ⟨⟨i1, i2, i3, i4, i5⟩, hl⟩ := loop_head_inv junk deck verbose s hs
    obtain ⟨a1, -, -, a4, a5⟩ := draw_if_left_fields deck pos1 s
    obtain ⟨b1, -, -, b4, b5⟩ := draw_if_left_fields deck pos2 (draw_if_left deck pos1 s)
    rw [b1, b4, b5, a1, a4, a5, if_pos hlt]
    refine ⟨i1, i2, ?_, ?_, hl⟩ <;> split <;> omega
  | jqk_iter s0 positions i hs hlt ha hq =>
    obtain ⟨⟨i1, i2, i3, i4, i5⟩, hl⟩ := loop_head_inv junk deck verbose s0 hs
    obtain ⟨a1, -, -, a4, a5⟩ := jqk_replace_fields deck (positions.take i) s0
    rw [a1, a4, a5]
    exact ⟨i1, i2, by omega, by omega, hl⟩
  | returned s0 s r hs hlt ht =>
    obtain ⟨⟨i1, i2, i3, i4, i5⟩, hl⟩ := loop_head_inv junk deck verbose s0 hs
    obtain ⟨-, -, -, -, e⟩ := turn_ret_spec deck verbose s0 s r ht
    subst e
    exact ⟨i1, i2, show 2 ≤ s0.deck_pos by omega, i5, hl⟩

/-- C12: at every point of `play` from the end of the initial deal on, the
number of visible cards is between 2 and 9 and the deck cursor between 2 and
52, and `visible` keeps its nine slots; every turn starts with the cursor
below 52 (so below the length of the deck), and every slot index written in
a turn (the pair of `add_to_11`, the positions of `jqk`, the slot of a new
pile) is below 9; the state that `play` ends in is one of these points. -/
theorem play_bounds (junk deck : List Int) (verbose : Int)
    (hd : deck.length = DECK_SIZE) (hj : junk.length = MAX_PILES) :
    (∀ s, Point junk deck verbose s →
      2 ≤ s.num_visible ∧ s.num_visible ≤ MAX_PILES ∧ 2 ≤ s.deck_pos ∧
        s.deck_pos ≤ DECK_SIZE ∧ s.deck_pos ≤ deck.length ∧
        s.visible.length = MAX_PILES) ∧
    (∀ s, LoopHead junk deck verbose s → s.deck_pos < DECK_SIZE →
      s.deck_pos < deck.length ∧
      (∀ pos1 pos2, add_to_11 s.visible s.num_visible = some (pos1, pos2) →
        pos1 < s.visible.length ∧ pos2 < s.visible.length) ∧
      (∀ positions, jqk s.visible s.num_visible = some positions →
        ∀ p ∈ positions, p < s.visible.length) ∧
      (add_to_11 s.visible s.num_visible = none → jqk s.visible s.num_visible = none →
        s.num_piles + 1 ≤ MAX_PILES - 1 → s.num_visible < s.visible.length)) ∧
    ∃ r, play junk deck verbose = some r ∧ Point junk deck verbose r.final := by
  refine ⟨fun s hs => ?_, fun s hs hlt => ?_, ?_⟩
  · obtain ⟨a, b, c, d, e⟩ := point_bounds junk deck verbose s hs
    exact ⟨a, b, c, d, by rw [hd]; exact d, by rw [e, hj]⟩
  · obtain ⟨⟨i1, i2, i3, i4, i5⟩, hl⟩ := loop_head_inv junk deck verbose s hs
    rw [hl, hj]
    refine ⟨by rw [hd]; exact hlt, fun pos1 pos2 hp => ?_, fun positions hq p hp => ?_,
      fun _ _ hpile => ?_⟩
    · obtain ⟨a, b, -, -⟩ := add_to_11_some_spec _ _ _ hp
      simp only at a b
      omega
    · obtain ⟨pj, pq, pk, e, a, b, c⟩ := jqk_some_spec _ _ _ hq
      subst e
      simp only [List.mem_cons, List.mem_singleton, List.not_mem_nil, or_false] at hp
      rcases hp with rfl | rfl | rfl
      · have := a.1; omega
      · have := b.1; omega
      · have := c.1; omega
    · simp only [MAX_PILES] at hpile ⊢
      omega
  · obtain ⟨r, hr, -⟩ := play_fuel_spec DECK_SIZE junk deck verbose (by decide)
    exact ⟨r, hr, play_loop_point junk deck verbose _ _ _ r (LoopHead.init) hr⟩

theorem play_bounds_witness :
    sample_deck.length = DECK_SIZE ∧ sample_junk.length = MAX_PILES ∧
    (∀ s, Point sample_junk sample_deck 1 s →
      2 ≤ s.num_visible ∧ s.num_visible ≤ MAX_PILES ∧ 2 ≤ s.deck_pos ∧
        s.deck_pos ≤ DECK_SIZE ∧ s.deck_pos ≤ sample_deck.length ∧
        s.visible.length = MAX_PILES) ∧
    (∀ s, LoopHead sample_junk sample_deck 1 s → s.deck_pos < DECK_SIZE →
      s.deck_pos < sample_deck.length ∧
      (∀ pos1 pos2, add_to_11 s.visible s.num_visible = some (pos1, pos2) →
        pos1 < s.visible.length ∧ pos2 < s.visible.length) ∧
      (∀ positions, jqk s.visible s.num_visible = some positions →
        ∀ p ∈ positions, p < s.visible.length) ∧
      (add_to_11 s.visible s.num_visible = none → jqk s.visible s.num_visible = none →
        s.num_piles + 1 ≤ MAX_PILES - 1 → s.num_visible < s.visible.length)) ∧
    ∃ r, play sample_junk sample_deck 1 = some r ∧ Point sample_junk sample_deck 1 r.final :=
  ⟨by decide, by decide, play_bounds sample_junk sample_deck 1 (by decide) (by decide)⟩

theorem print_visible_take (v : List Int) (n : Nat) (h : n ≤ v.length) :
    print_visible v n = v.take n :=
  print_visible_eq_take v v n h (fun _ _ => rfl)

/-- What a turn that runs to its end prints: one line when tracing, the visible
row after the turn; the row is as long as before the turn or one longer. -/
theorem turn_next_out (deck : List Int) (verbose : Int) (s s' : PlayState)
    (h : turn deck verbose s = .next s') :
    s'.out = (if verbose ≠ 0 then s.out ++ [print_visible s'.visible s'.num_visible]
      else s.out) ∧
    (s'.num_visible = s.num_visible ∨ s'.num_visible = s.num_visible + 1) := by
  rcases turn_cases deck verbose s with ⟨p1, p2, -, ht⟩ | ⟨-, ps, -, ht⟩ | ⟨-, -, -, ht⟩ |
    ⟨-, -, -, ht⟩
  · rw [ht] at h; cases h
    rw [trace_visible_out, trace_visible_visible, trace_visible_num_visible,
      (draw_if_left_fields _ _ _).2.2.1, (draw_if_left_fields _ _ _).2.2.1,
      (draw_if_left_fields _ _ _).1, (draw_if_left_fields _ _ _).1]
    exact ⟨rfl, Or.inl rfl⟩
  · rw [ht] at h; cases h
    rw [trace_visible_out, trace_visible_visible, trace_visible_num_visible,
      (jqk_replace_fields _ _ _).2.2.1, (jqk_replace_fields _ _ _).1]
    exact ⟨rfl, Or.inl rfl⟩
  · rw [ht] at h; cases h
  · rw [ht] at h; cases h
    rw [trace_visible_out, trace_visible_visible, trace_visible_num_visible]
    exact ⟨rfl, Or.inr rfl⟩

theorem trace_shape_init (junk deck : List Int) (verbose : Int) (hv : verbose ≠ 0)
    (hj : junk.length = MAX_PILES) :
    (play_init junk deck verbose).out = [[deck.getD 0 0, deck.getD 1 0]] ∧
      TraceShape deck (play_init junk deck verbose) := by
  have hl : 2 ≤ ((junk.set 0 (deck.getD 0 0)).set 1 (deck.getD 1 0)).length := by
    simp only [List.length_set, hj, MAX_PILES]; omega
  have ht : ((junk.set 0 (deck.getD 0 0)).set 1 (deck.getD 1 0)).take 2 =
      [deck.getD 0 0, deck.getD 1 0] := by
    match junk, hj with
    | a :: b :: t, _ => simp
  have ho : (play_init junk deck verbose).out = [[deck.getD 0 0, deck.getD 1 0]] := by
    unfold play_init
    rw [trace_visible_out, if_pos hv]
    simp only [List.nil_append]
    rw [print_visible_take _ 2 hl, ht]
  refine ⟨ho, ?_⟩
  unfold TraceShape
  rw [ho]
  refine ⟨rfl, ?_, List.chain'_singleton _, ?_⟩
  · unfold play_init
    rw [trace_visible_visible, trace_visible_num_visible]
    simp only [List.getLast?_singleton]
    rw [ht]
  · intro l hl
    simp only [List.mem_singleton] at hl
    subst hl
    simp [MAX_PILES]

theorem trace_shape_step (deck : List Int) (verbose : Int) (s s' : PlayState)
    (hv : verbose ≠ 0) (hI : Inv s) (hlt : s.deck_pos < DECK_SIZE)
    (hl : s.visible.length = MAX_PILES) (ht : turn deck verbose s = .next s')
    (hT : TraceShape deck s) :
    s'.out = s.out ++ [s'.visible.take s'.num_visible] ∧ TraceShape deck s' := by
  obtain ⟨hI', hl'⟩ := turn_next_inv deck verbose s s' hI hlt ht
  obtain ⟨ho, hn⟩ := turn_next_out deck verbose s s' ht
  have hle : s'.num_visible ≤ s'.visible.length := by
    rw [hl', hl]; exact hI'.2.1
  have hle0 : s.num_visible ≤ s.visible.length := by
    rw [hl]; exact hI.2.1
  rw [if_pos hv, print_visible_take _ _ hle] at ho
  refine ⟨ho, ?_⟩
  obtain ⟨t1, t2, t3, t4⟩ := hT
  unfold TraceShape
  rw [ho]
  refine ⟨?_, List.getLast?_concat _, ?_, ?_⟩
  · rw [List.head?_append, t1]; rfl
  · rw [List.chain'_append]
    refine ⟨t3, List.chain'_singleton _, ?_⟩
    intro x hx y hy
    rw [t2] at hx
    simp only [Option.mem_def, Option.some.injEq, List.head?_cons] at hx hy
    subst hx; subst hy
    simp only [List.length_take, Nat.min_eq_left hle, Nat.min_eq_left hle0]
    exact hn
  · intro l hm
    rw [List.mem_append, List.mem_singleton] at hm
    rcases hm with hm | rfl
    · exact t4 l hm
    · simp only [List.length_take, Nat.min_eq_left hle]
      exact ⟨hI'.1, hI'.2.1⟩

/-- The loop of a tracing `play`, started at a loop test after `t` turns with
`t + 1` lines printed: at the end one line was printed per turn that ran to
its end, none for a turn that returned, and the lines have the shape
`TraceShape`. -/
theorem play_loop_trace (deck : List Int) (verbose : Int) (hv : verbose ≠ 0) :
    ∀ (fuel : Nat) (s : PlayState) (t : Nat) (r : PlayResult),
      Inv s → s.visible.length = MAX_PILES → TraceShape deck s → s.out.length = t + 1 →
      play_loop deck verbose fuel s t = some r →
      TraceShape deck r.final ∧
        r.final.out.length = (if r.ret = 0 then r.turns + 1 else r.turns)
  | 0, s, t, r, _, _, hT, hn, h => by
    rw [play_loop] at h
    split at h
    · cases h
    · cases h
      exact ⟨hT, by simp only [if_true]; exact hn⟩
  | fuel + 1, s, t, r, hI, hl, hT, hn, h => by
    rw [play_loop] at h
    by_cases hlt : s.deck_pos < DECK_SIZE
    · rw [if_pos hlt] at h
      cases ht : turn deck verbose s with
      | next s' =>
        rw [ht] at h
        obtain ⟨hI', hl'⟩ := turn_next_inv deck verbose s s' hI hlt ht
        obtain ⟨ho, hT'⟩ := trace_shape_step deck verbose s s' hv hI hlt hl ht hT
        exact play_loop_trace deck verbose hv fuel s' (t + 1) r hI' (by rw [hl', hl]) hT'
          (by rw [ho, List.length_append, hn]; rfl) h
      | ret x s' =>
        rw [ht] at h
        cases h
        obtain ⟨-, -, -, hx, e⟩ := turn_ret_spec deck verbose s s' x ht
        subst e
        have hx0 : x ≠ 0 := by omega
        refine ⟨hT, ?_⟩
        simp only [hx0, if_false]
        exact hn
    · rw [if_neg hlt] at h
      cases h
      exact ⟨hT, by simp only [if_true]; exact hn⟩

/-- C19: with tracing on, `play` prints one line for the initial deal,
`[deck[0], deck[1]]`, then one line after each turn that runs to its end, the
visible row at that moment, and nothing in a turn that returns.  The lines
printed by a whole game: the first is the initial deal, there is one per turn
plus one (one less if the game was lost), the last is the final visible row,
each line is as long as the one before or one longer, and every line has
between 2 and 9 entries. -/
theorem play_trace_lines (junk deck : List Int) (verbose : Int) (hv : verbose ≠ 0)
    (hj : junk.length = MAX_PILES) :
    (play_init junk deck verbose).out = [[deck.getD 0 0, deck.getD 1 0]] ∧
    (∀ s s', LoopHead junk deck verbose s → s.deck_pos < DECK_SIZE →
      turn deck verbose s = .next s' →
      s'.out = s.out ++ [s'.visible.take s'.num_visible] ∧
        (s'.num_visible = s.num_visible ∨ s'.num_visible = s.num_visible + 1)) ∧
    (∀ s s' r, LoopHead junk deck verbose s → turn deck verbose s = .ret r s' →
      s'.out = s.out) ∧
    ∃ r, play junk deck verbose = some r ∧
      r.final.out.head? = some [deck.getD 0 0, deck.getD 1 0] ∧
      r.final.out.length = (if r.ret = 0 then r.turns + 1 else r.turns) ∧
      r.final.out.getLast? = some (r.final.visible.take r.final.num_visible) ∧
      List.Chain' (fun a b : List Int => b.length = a.length ∨ b.length = a.length + 1)
        r.final.out ∧
      ∀ l ∈ r.final.out, 2 ≤ l.length ∧ l.length ≤ 9 := by
  obtain ⟨ho, hT⟩ := trace_shape_init junk deck verbose hv hj
  refine ⟨ho, fun s s' hs hlt ht => ?_, fun s s' r _ ht => ?_, ?_⟩
  · obtain ⟨hI, hl⟩ := loop_head_inv junk deck verbose s hs
    obtain ⟨hI', hl'⟩ := turn_next_inv deck verbose s s' hI hlt ht
    obtain ⟨e, hn⟩ := turn_next_out deck verbose s s' ht
    rw [if_pos hv, print_visible_take _ _ (by rw [hl', hl, hj]; exact hI'.2.1)] at e
    exact ⟨e, hn⟩
  · obtain ⟨-, -, -, -, e⟩ := turn_ret_spec deck verbose s s' r ht
    rw [e]
  · obtain ⟨r, hr, -⟩ := play_fuel_spec DECK_SIZE junk deck verbose (by decide)
    obtain ⟨hI, -, hl⟩ := play_init_inv junk deck verbose
    obtain ⟨⟨t1, t2, t3, t4⟩, hn⟩ := play_loop_trace deck verbose hv DECK_SIZE _ 0 r hI
      (by rw [hl, hj]) hT (by rw [ho]; rfl) hr
    exact ⟨r, hr, t1, hn, t2, t3, t4⟩

theorem play_trace_lines_witness :
    (1 : Int) ≠ 0 ∧ sample_junk.length = MAX_PILES ∧
    (play_init sample_junk sample_deck 1).out =
      [[sample_deck.getD 0 0, sample_deck.getD 1 0]] ∧
    (∀ s s', LoopHead sample_junk sample_deck 1 s → s.deck_pos < DECK_SIZE →
      turn sample_deck 1 s = .next s' →
      s'.out = s.out ++ [s'.visible.take s'.num_visible] ∧
        (s'.num_visible = s.num_visible ∨ s'.num_visible = s.num_visible + 1)) ∧
    (∀ s s' r, LoopHead sample_junk sample_deck 1 s → turn sample_deck 1 s = .ret r s' →
      s'.out = s.out) ∧
    ∃ r, play sample_junk sample_deck 1 = some r ∧
      r.final.out.head? = some [sample_deck.getD 0 0, sample_deck.getD 1 0] ∧
      r.final.out.length = (if r.ret = 0 then r.turns + 1 else r.turns) ∧
      r.final.out.getLast? = some (r.final.visible.take r.final.num_visible) ∧
      List.Chain' (fun a b : List Int => b.length = a.length ∨ b.length = a.length + 1)
        r.final.out ∧
      ∀ l ∈ r.final.out, 2 ≤ l.length ∧ l.length ≤ 9 :=
  ⟨by decide, by decide, play_trace_lines sample_junk sample_deck 1 (by decide) (by decide)⟩

/-- With a nonzero seed the result of `shuffle_deck` depends neither on the
generator state nor on the content of the array before the call. -/
theorem shuffle_deck_seeded_eq {σ : Type} (g : Rng σ) (seed : Int)
    (deck1 deck2 : List Int) (st1 st2 : σ) (hs : seed ≠ 0)
    (h1 : deck1.length = DECK_SIZE) (h2 : deck2.length = DECK_SIZE) :
    shuffle_deck g deck1 seed st1 = shuffle_deck g deck2 seed st2 := by
  unfold shuffle_deck
  rw [fill_deck_sorted deck1 h1, fill_deck_sorted deck2 h2, if_pos hs, if_pos hs]

theorem shuffle_deck_length {σ : Type} (g : Rng σ) (deck : List Int) (seed : Int) (st : σ)
    (hd : deck.length = DECK_SIZE) : (shuffle_deck g deck seed st).1.length = DECK_SIZE := by
  unfold shuffle_deck
  rw [fill_deck_sorted deck hd]
  rw [(fisher_yates_perm g _ _ _ (by simp [sorted_deck, DECK_SIZE])).length_eq]
  simp [sorted_deck]

/-- With a nonzero seed `main` replays the same game: the second shuffle gives
the deck of the first, and the second game returns and prints the same. -/
theorem main_replays_nonzero_seed {σ : Type} (g : Rng σ) (junk1 junk2 deck0 : List Int)
    (seed : Int) (st : σ) (hs : seed ≠ 0) (hd : deck0.length = DECK_SIZE)
    (hj1 : junk1.length = MAX_PILES) (hj2 : junk2.length = MAX_PILES) :
    ∃ m, main g junk1 junk2 deck0 seed st = some m ∧ m.second_deck = m.first_deck ∧
      m.replay_left = m.cards_left ∧ m.file = m.console := by
  have hlen := shuffle_deck_length g deck0 seed st hd
  have hsame : (shuffle_deck g (shuffle_deck g deck0 seed st).1 seed
      (shuffle_deck g deck0 seed st).2).1 = (shuffle_deck g deck0 seed st).1 :=
    congrArg Prod.fst (shuffle_deck_seeded_eq g seed _ deck0 _ st hs hlen hd)
  obtain ⟨r1, hr1, -⟩ := play_fuel_spec DECK_SIZE junk1 (shuffle_deck g deck0 seed st).1 1
    (by decide)
  obtain ⟨r2, hr2, -⟩ := play_fuel_spec DECK_SIZE junk2 (shuffle_deck g deck0 seed st).1 1
    (by decide)
  obtain ⟨e, eo⟩ := play_init_agree junk1 junk2 (shuffle_deck g deck0 seed st).1 1 1 hj1 hj2
  obtain ⟨hI, -, hl⟩ := play_init_inv junk1 (shuffle_deck g deck0 seed st).1 1
  obtain ⟨k1, -, -, k4⟩ := play_loop_agree (shuffle_deck g deck0 seed st).1 1 1 DECK_SIZE _ _ 0
    r1 r2 e hI (by rw [hl, hj1]) hr1 hr2
  have hr1' : play junk1 (shuffle_deck g deck0 seed st).1 1 = some r1 := hr1
  have hr2' : play junk2 (shuffle_deck g deck0 seed st).1 1 = some r2 := hr2
  have hm : main g junk1 junk2 deck0 seed st =
      some { first_deck := (shuffle_deck g deck0 seed st).1,
             cards_left := r1.ret,
             console := r1.final.out,
             win_file := decide (r1.ret = 0),
             second_deck := (shuffle_deck g deck0 seed st).1,
             replay_left := r2.ret,
             file := r2.final.out } := by
    simp only [main, hsame, hr1', hr2']
  exact ⟨_, hm, rfl, k1.symm, (k4 Iff.rfl (eo Iff.rfl)).symm⟩

/-- C11 (the failing run): with seed 0 and the sample generator started in
state 1, the first game of `main` ends with 41 cards left (so lose.txt is
chosen and 41 is printed in the result line), but the second shuffle gives
another deck and the game replayed into the file ends with 24 cards left. -/
theorem main_seed_zero_replays_another_game :
    (main sample_rng sample_junk sample_junk (List.replicate 52 0) 0 1).map
        (fun m => (m.cards_left, m.win_file, m.replay_left,
          decide (m.second_deck = m.first_deck), decide (m.file = m.console))) =
      some (41, false, 24, false, false) := by
  decide

/-- C20: `play` returns at most 43 = 52 - 9, a loss happening with nine cards
visible and so at least nine cards drawn; the value is a valid index of the
52 entries that `many_plays` allocates and lies in the range 0..43 that
pstatistics reports; so does the result of every game of a batch. -/
theorem play_result_at_most_43 :
    (∀ (junk deck : List Int) (verbose : Int),
      ∃ r, play junk deck verbose = some r ∧ 0 ≤ r.ret ∧ r.ret ≤ 43 ∧
        r.ret.toNat < DECK_SIZE ∧ r.ret.toNat < max_cards_left ∧
        (r.ret ≠ 0 → r.final.num_visible = 9 ∧ 9 ≤ r.final.deck_pos)) ∧
    (∀ {σ : Type} (g : Rng σ) (junk : Nat → List Int) (deck0 : List Int) (st : σ) (k : Nat),
      ∃ x, game_result g junk deck0 st k = some x ∧ 0 ≤ x ∧ x ≤ 43 ∧
        x.toNat < DECK_SIZE ∧ x.toNat < max_cards_left) := by
  have key : ∀ (junk deck : List Int) (verbose : Int),
      ∃ r, play junk deck verbose = some r ∧ 0 ≤ r.ret ∧ r.ret ≤ 43 ∧
        r.ret.toNat < DECK_SIZE ∧ r.ret.toNat < max_cards_left ∧
        (r.ret ≠ 0 → r.final.num_visible = 9 ∧ 9 ≤ r.final.deck_pos) := by
    intro junk deck verbose
    obtain ⟨r, hr, hF, -, -⟩ := play_fuel_spec DECK_SIZE junk deck verbose (by decide)
    refine ⟨r, hr, ?_⟩
    rcases hF with ⟨a, -, -⟩ | ⟨a, b, c, -, d, -⟩
    · rw [a]
      exact ⟨by decide, by decide, by decide, by decide, fun h => absurd rfl h⟩
    · simp only [DECK_SIZE, MAX_PILES, max_cards_left] at a b c d ⊢
      exact ⟨by omega, by omega, by omega, by omega, fun _ => ⟨c, d⟩⟩
  refine ⟨key, fun g junk deck0 st k => ?_⟩
  obtain ⟨r, hr, h1, h2, h3, h4, -⟩ := key (junk k) (game_input g deck0 st k).1 0
  exact ⟨r.ret, by simp only [game_result, hr, Option.map_some'], h1, h2, h3, h4⟩

/-- On `sample_stale_deck` the last turn replaces the pair in slots 4 and 8 with
one card left: slot 4 gets it, slot 8 keeps its 5, and `play` returns 0 at
once, after 28 turns. -/
theorem play_sample_stale_deck :
    (shuffle_deck sample_rng (List.replicate 52 0) 25 0).1 = sample_stale_deck ∧
    (play sample_junk sample_stale_deck 1).map
        (fun r => (r.ret, r.turns, r.final.deck_pos, r.final.visible,
          r.final.out.reverse.take 2)) =
      some (0, 28, 52, [12, 13, 11, 11, 13, 7, 12, 4, 5],
        [[12, 13, 11, 11, 13, 7, 12, 4, 5], [12, 13, 11, 11, 6, 7, 12, 4, 5]]) := by
  decide

/-- The sample decks written out by hand are valid decks. -/
theorem sample_decks_valid :
    sample_kqj_deck.Perm sorted_deck ∧ sample_losing_deck.Perm sorted_deck := by
  constructor <;> rw [List.perm_iff_count] <;> intro v <;>
    rw [sorted_deck_count] <;> split
  · next h => obtain ⟨h1, h2⟩ := h; interval_cases v <;> decide
  · next h =>
    rw [List.count_eq_zero]
    intro hm
    simp only [sample_kqj_deck, List.mem_cons, List.mem_singleton, List.not_mem_nil,
      or_false] at hm
    omega
  · next h => obtain ⟨h1, h2⟩ := h; interval_cases v <;> decide
  · next h =>
    rw [List.count_eq_zero]
    intro hm
    simp only [sample_losing_deck, List.mem_cons, List.mem_singleton, List.not_mem_nil,
      or_false] at hm
    omega

end Patience
